import Mathlib

/-!
Redis message queue (`Redis/mq/main.go`, `Redis/mq/config.go`).

A shallow embedding of the queue engine: the `Message` envelope and its JSON
wire format, the Redis list and sorted-set commands the engine issues, the
producers, the two consumer loops, dead-letter routing and the length
accessor, followed by the properties of the specification.

Conventions of the embedding.

* Go strings are modelled by `String`: the strings that are valid UTF-8.
* A stored payload is modelled by its JSON document tree (`Payload.json`), or
  by `Payload.text` for a byte string that is not a JSON document.
* `float64` values in message data are modelled by the rational number they
  hold. A sorted-set score is the integer its `float64` holds; `toFloat64`
  gives the rounding of the conversion from `int64`.
* A Redis command takes a flag saying whether the call fails (connection or
  server error) and returns its reply together with the store after the call;
  a failing call has no effect on the stored data.
* A loop is run over a list of per-iteration readings (clock value, failure
  flags); the length of the list bounds the number of iterations.
-/

deriving instance DecidableEq for Except

namespace RedisMQ

/-! ## Go values held in `interface{}` -/

mutual
/-- Dynamic Go values that can sit in an `interface{}`: the kinds the JSON
decoder produces (`nil`, `bool`, finite `float64`, `string` of valid UTF-8,
non-nil `[]interface{}`, non-nil `map[string]interface{}`), an integer kind
(`int`), a nil slice and a nil map (typed nils), the `float64` values that are
not finite (`nonFinite`: NaN and the infinities), and a kind the encoder
rejects (`chan`, standing for channels, functions and complex numbers). -/
inductive GoValue where
  | null
  | bool (b : Bool)
  | int (n : Int)
  | float64 (x : ℚ)
  | str (s : String)
  | slice (xs : GoSlice)
  | map (kvs : GoMap)
  | nilSlice
  | nilMap
  | nonFinite
  | chan
  deriving DecidableEq
/-- A non-nil `[]interface{}`. -/
inductive GoSlice where
  | nil
  | cons (v : GoValue) (tl : GoSlice)
  deriving DecidableEq
/-- A non-nil `map[string]interface{}`, kept as its entries in ascending key
order (the order in which `json.Marshal` writes them). -/
inductive GoMap where
  | nil
  | cons (k : String) (v : GoValue) (tl : GoMap)
  deriving DecidableEq
end

/-- Lexicographic order of two rune sequences by code point (the byte-wise
order of their UTF-8 encodings). -/
def ltChars : List Char → List Char → Bool
  | [], [] => false
  | [], _ :: _ => true
  | _ :: _, [] => false
  | a :: as, b :: bs =>
    if a.toNat < b.toNat then true
    else if a.toNat = b.toNat then ltChars as bs
    else false

/-- Byte-wise order of two map keys. -/
def keyLt (a b : String) : Prop := ltChars a.toList b.toList = true

instance (a b : String) : Decidable (keyLt a b) := by
  unfold keyLt; infer_instance

/-- Go `m[k] = v` on the ordered entry list: replace the entry of `k`, or
insert it at its place. -/
def GoMap.set : GoMap → String → GoValue → GoMap
  | .nil, k, v => .cons k v .nil
  | .cons k0 v0 tl, k, v =>
    if k = k0 then .cons k v tl
    else if keyLt k k0 then .cons k v (.cons k0 v0 tl)
    else .cons k0 v0 (GoMap.set tl k v)

/-- Go `int64` range. -/
def inInt64 (n : Int) : Prop := -9223372036854775808 ≤ n ∧ n ≤ 9223372036854775807

instance (n : Int) : Decidable (inInt64 n) := by
  unfold inInt64; infer_instance

/-- Go `int64` addition result: the sum reduced into the `int64` range. -/
def wrapInt64 (n : Int) : Int :=
  (n + 9223372036854775808) % 18446744073709551616 - 9223372036854775808

/-- The number of low bits a magnitude `a` has beyond 53 significant bits
(`fuel` bounds the search; 64 covers `int64`). -/
def excessBits : Nat → Nat → Nat
  | 0, _ => 0
  | fuel + 1, a => if a < 9007199254740992 then 0 else 1 + excessBits fuel (a / 2)

/-- The Go conversion `float64(n)` of an `int64`, given by the integer the
resulting `float64` holds: exact up to `2^53` in magnitude, and beyond that
rounded to 53 significant bits, ties to the even significand. -/
def toFloat64 (n : Int) : Int :=
  if n.natAbs ≤ 9007199254740992 then n
  else
    let e := excessBits 64 n.natAbs
    let q := n.natAbs / 2 ^ e
    let r := n.natAbs % 2 ^ e
    let half := 2 ^ (e - 1)
    let q1 := if half < r ∨ (r = half ∧ q % 2 = 1) then q + 1 else q
    Int.sign n * ((q1 * 2 ^ e : Nat) : Int)

/-! ## JSON documents -/

/-- A JSON number literal: written as an integer (`-?digits`), or with a
fraction or exponent part (kept by its value). -/
inductive NumLit where
  | int (n : Int)
  | real (q : ℚ)
  deriving DecidableEq

/-- The number a literal denotes. -/
def NumLit.value : NumLit → ℚ
  | .int n => (n : ℚ)
  | .real q => q

mutual
/-- JSON document tree. -/
inductive Json where
  | null
  | bool (b : Bool)
  | num (l : NumLit)
  | str (s : String)
  | arr (xs : JsonArr)
  | obj (ms : JsonObj)
  deriving DecidableEq
/-- Elements of a JSON array. -/
inductive JsonArr where
  | nil
  | cons (v : Json) (tl : JsonArr)
  deriving DecidableEq
/-- Members of a JSON object, in document order. -/
inductive JsonObj where
  | nil
  | cons (k : String) (v : Json) (tl : JsonObj)
  deriving DecidableEq
end

/-- A value stored in Redis: a JSON document, or bytes that are not one. -/
inductive Payload where
  | json (j : Json)
  | text (s : String)
  deriving DecidableEq

/-- The literal `json.Marshal` writes for a `float64`: integer-valued numbers
below `1e21` in magnitude are written without fraction or exponent. -/
def floatLit (x : ℚ) : NumLit :=
  if x.den = 1 ∧ |x.num| < 1000000000000000000000 then .int x.num else .real x

mutual
/-- The `json.Marshal` encoding of a value held in `interface{}`; a nil slice
or map is written as `null`; `none` is `UnsupportedTypeError` or
`UnsupportedValueError`. -/
def GoValue.encode : GoValue → Option Json
  | .null => some .null
  | .bool b => some (.bool b)
  | .int n => some (.num (.int n))
  | .float64 x => some (.num (floatLit x))
  | .str s => some (.str s)
  | .slice xs =>
    match GoSlice.encode xs with
    | some js => some (.arr js)
    | none => none
  | .map kvs =>
    match GoMap.encode kvs with
    | some ms => some (.obj ms)
    | none => none
  | .nilSlice => some .null
  | .nilMap => some .null
  | .nonFinite => none
  | .chan => none
/-- Element-wise encoding of a slice. -/
def GoSlice.encode : GoSlice → Option JsonArr
  | .nil => some .nil
  | .cons v tl =>
    match GoValue.encode v, GoSlice.encode tl with
    | some j, some js => some (.cons j js)
    | _, _ => none
/-- Entry-wise encoding of a map, keys ascending. -/
def GoMap.encode : GoMap → Option JsonObj
  | .nil => some .nil
  | .cons k v tl =>
    match GoValue.encode v, GoMap.encode tl with
    | some j, some ms => some (.cons k j ms)
    | _, _ => none
end

mutual
/-- The `json.Unmarshal` decoding of a document into an `interface{}`: every
number becomes a `float64`. -/
def Json.decode : Json → GoValue
  | .null => .null
  | .bool b => .bool b
  | .num l => .float64 l.value
  | .str s => .str s
  | .arr xs => .slice (JsonArr.decode xs)
  | .obj ms => .map (JsonObj.decodeInto ms .nil)
/-- Element-wise decoding of an array. -/
def JsonArr.decode : JsonArr → GoSlice
  | .nil => .nil
  | .cons v tl => .cons (Json.decode v) (JsonArr.decode tl)
/-- Decoding of object members into an existing map, in document order; a
repeated key overwrites. -/
def JsonObj.decodeInto : JsonObj → GoMap → GoMap
  | .nil, acc => acc
  | .cons k v tl, acc => JsonObj.decodeInto tl (acc.set k (Json.decode v))
end

/-- Keys of a map, in stored order. -/
def GoMap.keys : GoMap → List String
  | .nil => []
  | .cons k _ tl => k :: GoMap.keys tl

/-- Entries of the second map placed after those of the first. -/
def GoMap.append : GoMap → GoMap → GoMap
  | .nil, m => m
  | .cons k v tl, m => .cons k v (GoMap.append tl m)

/-- The entry list is a map in canonical form: keys strictly ascending. -/
def GoMap.ascending : GoMap → Prop
  | .nil => True
  | .cons k _ tl => (∀ b ∈ GoMap.keys tl, keyLt k b) ∧ GoMap.ascending tl

mutual
/-- Every map inside the value is in canonical form. -/
def GoValue.wellFormed : GoValue → Prop
  | .slice xs => GoSlice.wellFormed xs
  | .map kvs => GoMap.wellFormed kvs
  | _ => True
/-- Every map inside the slice is in canonical form. -/
def GoSlice.wellFormed : GoSlice → Prop
  | .nil => True
  | .cons v tl => GoValue.wellFormed v ∧ GoSlice.wellFormed tl
/-- The map and every map inside it are in canonical form. -/
def GoMap.wellFormed : GoMap → Prop
  | .nil => True
  | .cons k v tl =>
    (∀ b ∈ GoMap.keys tl, keyLt k b) ∧ GoValue.wellFormed v ∧ GoMap.wellFormed tl
end

mutual
/-- The value is built only from the kinds the JSON decoder produces: `nil`,
`bool`, finite `float64`, `string`, non-nil `[]interface{}`, non-nil
`map[string]interface{}`. -/
def GoValue.jsonNative : GoValue → Prop
  | .null => True
  | .bool _ => True
  | .int _ => False
  | .float64 _ => True
  | .str _ => True
  | .slice xs => GoSlice.jsonNative xs
  | .map kvs => GoMap.jsonNative kvs
  | .nilSlice => False
  | .nilMap => False
  | .nonFinite => False
  | .chan => False
/-- Every element is built from decoder kinds. -/
def GoSlice.jsonNative : GoSlice → Prop
  | .nil => True
  | .cons v tl => GoValue.jsonNative v ∧ GoSlice.jsonNative tl
/-- Every entry value is built from decoder kinds. -/
def GoMap.jsonNative : GoMap → Prop
  | .nil => True
  | .cons _ v tl => GoValue.jsonNative v ∧ GoMap.jsonNative tl
end

/-! ## Message -/

/-- The `Message` struct. `Data` is `none` for a nil map. -/
structure Message where
  ID : String
  Data : Option GoMap
  Timestamp : Int
  Retry : Int
  deriving DecidableEq

/-- The record is a Go value of type `Message`: both integers are in range and
the maps of `Data` are in canonical form. -/
def Message.wellFormed (m : Message) : Prop :=
  inInt64 m.Timestamp ∧ inInt64 m.Retry ∧
  match m.Data with
  | none => True
  | some kvs => GoMap.wellFormed kvs

/-- The values in `Data` are built only from the kinds the JSON decoder
produces. -/
def Message.jsonNative (m : Message) : Prop :=
  match m.Data with
  | none => True
  | some kvs => GoMap.jsonNative kvs

/-- The zero value `var message Message`. -/
def Message.zero : Message := { ID := "", Data := none, Timestamp := 0, Retry := 0 }

/-- Encoding of the `Data` field: a nil map is written as `null`. -/
def encodeData : Option GoMap → Option Json
  | none => some .null
  | some kvs =>
    match GoMap.encode kvs with
    | some ms => some (.obj ms)
    | none => none

/-- Model of `json.Marshal(message)`: an object with the members `id`, `data`,
`timestamp`, `retry` in struct order. -/
def Marshal (m : Message) : Except String Payload :=
  match encodeData m.Data with
  | none => .error "json: unsupported type"
  | some d =>
    .ok (.json (.obj (.cons "id" (.str m.ID) (.cons "data" d
      (.cons "timestamp" (.num (.int m.Timestamp))
      (.cons "retry" (.num (.int m.Retry)) .nil))))))

/-- Case folding of one rune of an object key, as `encoding/json` folds names:
ASCII letters to upper case, and the two non-ASCII runes that fold to ASCII
letters (long s, Kelvin sign). -/
def foldRune (c : Char) : Char :=
  if 97 ≤ c.toNat ∧ c.toNat ≤ 122 then Char.ofNat (c.toNat - 32)
  else if c.toNat = 383 then 'S'
  else if c.toNat = 8490 then 'K'
  else c

/-- Folded form of an object key. -/
def foldName (s : String) : List Char := s.toList.map foldRune

/-- Whether an object key selects the struct field tagged `name`: exact match,
else case-insensitive match. -/
def fieldMatch (key name : String) : Bool :=
  decide (key = name) || decide (foldName key = foldName name)

/-- Storing one object member into the struct. `null` leaves a string or
integer field as it is and sets the map field to nil; an object is decoded
into the existing map (a new one when nil); an integer field takes an integer
literal within range; unknown keys are skipped. -/
def Message.setField (m : Message) (k : String) (v : Json) : Except String Message :=
  if fieldMatch k "id" then
    match v with
    | .null => .ok m
    | .str s => .ok { m with ID := s }
    | _ => .error "json: cannot unmarshal into Go struct field Message.id of type string"
  else if fieldMatch k "data" then
    match v with
    | .null => .ok { m with Data := none }
    | .obj ms => .ok { m with Data := some (JsonObj.decodeInto ms (m.Data.getD .nil)) }
    | _ => .error "json: cannot unmarshal into Go struct field Message.data of type map"
  else if fieldMatch k "timestamp" then
    match v with
    | .null => .ok m
    | .num (.int n) =>
      if inInt64 n then .ok { m with Timestamp := n }
      else .error "json: cannot unmarshal number into Go struct field Message.timestamp of type int64"
    | _ => .error "json: cannot unmarshal into Go struct field Message.timestamp of type int64"
  else if fieldMatch k "retry" then
    match v with
    | .null => .ok m
    | .num (.int n) =>
      if inInt64 n then .ok { m with Retry := n }
      else .error "json: cannot unmarshal number into Go struct field Message.retry of type int"
    | _ => .error "json: cannot unmarshal into Go struct field Message.retry of type int"
  else .ok m

/-- Decoding of the members of the top-level object into the struct. -/
def JsonObj.decodeStruct : JsonObj → Message → Except String Message
  | .nil, m => .ok m
  | .cons k v tl, m =>
    match m.setField k v with
    | .ok m1 => JsonObj.decodeStruct tl m1
    | .error e => .error e

/-- Model of `json.Unmarshal(payload, &message)` on a fresh `message`. -/
def Unmarshal : Payload → Except String Message
  | .json .null => .ok Message.zero
  | .json (.obj ms) => ms.decodeStruct Message.zero
  | .json _ => .error "json: cannot unmarshal into Go value of type main.Message"
  | .text _ => .error "invalid character looking for beginning of value"

/-! ## The Redis commands used by the queue -/

/-- The data held by the Redis server: lists and sorted sets, by key. A list is
kept left end first; a sorted set is kept as its members with their scores. -/
structure Store where
  lists : String → List Payload
  zsets : String → List (Payload × Int)

/-- Replace the list stored at `key`. -/
def Store.setList (s : Store) (key : String) (l : List Payload) : Store :=
  { s with lists := fun k => if k = key then l else s.lists k }

/-- Replace the sorted set stored at `key`. -/
def Store.setZSet (s : Store) (key : String) (z : List (Payload × Int)) : Store :=
  { s with zsets := fun k => if k = key then z else s.zsets k }

/-- `LPUSH key v`: insert at the left end. Returns the reply and the store
after the call. -/
def LPush (fails : Bool) (s : Store) (key : String) (v : Payload) :
    Except String Unit × Store :=
  if fails then (.error "redis: command failed", s)
  else (.ok (), s.setList key (v :: s.lists key))

/-- `BRPOP key 0`: remove and return the right-most element. `none` stands for
a call that never returns (empty list, no timeout). -/
def BRPop (fails : Bool) (s : Store) (key : String) :
    Option (Except String Payload × Store) :=
  if fails then some (.error "redis: command failed", s)
  else
    match (s.lists key).getLast? with
    | none => none
    | some v => some (.ok v, s.setList key (s.lists key).dropLast)

/-- `LLEN key`. -/
def LLen (fails : Bool) (s : Store) (key : String) : Except String Int × Store :=
  if fails then (.error "redis: command failed", s)
  else (.ok ((s.lists key).length : Int), s)

/-- The entries of a sorted set other than those of `member`. -/
def zsetRemove (z : List (Payload × Int)) (member : Payload) : List (Payload × Int) :=
  z.filter (fun e => !decide (e.1 = member))

/-- The number of entries a sorted set holds for `member`. -/
def zsetCount (z : List (Payload × Int)) (member : Payload) : Nat :=
  (z.filter (fun e => decide (e.1 = member))).length

/-- The entries with score in `[min, max]`, ascending by score (entries of
equal score in stored order), at most `count` of them. -/
def zsetRange (z : List (Payload × Int)) (min max : Int) (count : Nat) :
    List (Payload × Int) :=
  (List.insertionSort (fun a b => a.2 ≤ b.2)
    (z.filter (fun e => decide (min ≤ e.2) && decide (e.2 ≤ max)))).take count

/-- `ZADD key score member`: a member already present gets the new score. -/
def ZAdd (fails : Bool) (s : Store) (key : String) (score : Int) (member : Payload) :
    Except String Unit × Store :=
  if fails then (.error "redis: command failed", s)
  else (.ok (), s.setZSet key (zsetRemove (s.zsets key) member ++ [(member, score)]))

/-- `ZRANGEBYSCORE key min max WITHSCORES LIMIT 0 count`. -/
def ZRangeByScoreWithScores (fails : Bool) (s : Store) (key : String)
    (min max : Int) (count : Nat) : Except String (List (Payload × Int)) × Store :=
  if fails then (.error "redis: command failed", s)
  else (.ok (zsetRange (s.zsets key) min max count), s)

/-- `ZREM key member`: remove the member, report how many were removed. -/
def ZRem (fails : Bool) (s : Store) (key : String) (member : Payload) :
    Except String Int × Store :=
  if fails then (.error "redis: command failed", s)
  else (.ok (zsetCount (s.zsets key) member : Int),
    s.setZSet key (zsetRemove (s.zsets key) member))

/-! ## Configuration (`config.go`) -/

/-- The `Config` struct. -/
structure Config where
  RedisAddr : String
  RedisPassword : String
  RedisDB : Int
  QueueName : String
  MaxRetry : Int
  deriving DecidableEq

/-- `getEnv` over the process environment `environ` (`os.Getenv`, empty when
the variable is unset). -/
def getEnv (environ : String → String) (key defaultValue : String) : String :=
  if environ key ≠ "" then environ key else defaultValue

/-- `NewConfig`. -/
def NewConfig (environ : String → String) : Config :=
  { RedisAddr := getEnv environ "REDIS_ADDR" "localhost:6379"
    RedisPassword := getEnv environ "REDIS_PASSWORD" ""
    RedisDB := 0
    QueueName := getEnv environ "QUEUE_NAME" "default_queue"
    MaxRetry := 3 }

/-! ## The queue engine (`main.go`) -/

/-- The `RedisQueue` struct; the client connection is the `Store` passed to
each operation. -/
structure RedisQueue where
  queueName : String
  deriving DecidableEq

/-- `NewRedisQueue`. -/
def NewRedisQueue (queueName : String) : RedisQueue := { queueName := queueName }

/-- The caller-supplied handler: `.ok ()` for a nil error. -/
abbrev Handler := Message → Except String Unit

/-- `Producer`: serialize, then `LPUSH` onto the queue. Returns the error
result and the store after the call. -/
def Producer (rq : RedisQueue) (pushFails : Bool) (message : Message) (s : Store) :
    Except String Unit × Store :=
  match Marshal message with
  | .error e => (.error ("序列化消息失败: " ++ e), s)
  | .ok messageJSON =>
    match LPush pushFails s rq.queueName messageJSON with
    | (.error e, s1) => (.error ("推送消息到队列失败: " ++ e), s1)
    | (.ok _, s1) => (.ok (), s1)

/-- `moveToDeadLetter`: `LPUSH` onto `queueName:dead`; the results of
`json.Marshal` (error dropped, leaving empty bytes) and of the push are
discarded. -/
def moveToDeadLetter (rq : RedisQueue) (pushFails : Bool) (message : Message) (s : Store) :
    Store :=
  let deadLetterQueue := rq.queueName ++ ":dead"
  let messageJSON :=
    match Marshal message with
    | .ok p => p
    | .error _ => Payload.text ""
  (LPush pushFails s deadLetterQueue messageJSON).2

/-- What the environment decides during one `Consumer` iteration. -/
structure ConsumerEnv where
  popFails : Bool
  pushFails : Bool
  deriving DecidableEq

/-- How one `Consumer` iteration ended. `retried` carries the message after
`Retry++` and the (discarded) result of the `Producer` call. -/
inductive ConsumerOutcome where
  | popFailed
  | undecodable (payload : Payload)
  | succeeded (message : Message)
  | retried (message : Message) (pushed : Bool)
  | deadLettered (message : Message)
  deriving DecidableEq

/-- One iteration of the `Consumer` loop body; `none` when `BRPOP` never
returns. -/
def Consumer.body (rq : RedisQueue) (handler : Handler) (env : ConsumerEnv) (s : Store) :
    Option (Store × ConsumerOutcome) :=
  match BRPop env.popFails s rq.queueName with
  | none => none
  | some (.error _, s1) => some (s1, .popFailed)
  | some (.ok result, s1) =>
    match Unmarshal result with
    | .error _ => some (s1, .undecodable result)
    | .ok message =>
      match handler message with
      | .error _ =>
        if message.Retry < 3 then
          let message := { message with Retry := message.Retry + 1 }
          match Producer rq env.pushFails message s1 with
          | (.ok _, s2) => some (s2, .retried message true)
          | (.error _, s2) => some (s2, .retried message false)
        else
          some (moveToDeadLetter rq env.pushFails message s1, .deadLettered message)
      | .ok _ => some (s1, .succeeded message)

/-- The `Consumer` loop, one iteration per element of `envs`, stopping where
`BRPOP` blocks for good; returns the store and the outcomes in order. -/
def Consumer (rq : RedisQueue) (handler : Handler) :
    List ConsumerEnv → Store → Store × List ConsumerOutcome
  | [], s => (s, [])
  | env :: envs, s =>
    match Consumer.body rq handler env s with
    | none => (s, [])
    | some (s1, o) =>
      let r := Consumer rq handler envs s1
      (r.1, o :: r.2)

/-- What the environment decides during one `DelayedConsumer` iteration:
the value of `time.Now().Unix()` and which store calls fail. -/
structure DelayedEnv where
  now : Int
  rangeFails : Bool
  remFails : Bool
  deriving DecidableEq

/-- How one `DelayedConsumer` iteration ended. -/
inductive DelayedOutcome where
  | queryFailed
  | nothingDue
  | removeFailed (payload : Payload)
  | alreadyClaimed (payload : Payload)
  | undecodable (payload : Payload)
  | handled (payload : Payload) (message : Message) (result : Except String Unit)
  deriving DecidableEq

/-- First store call of a `DelayedConsumer` iteration: the range query with
`Min: "0"`, `Max: now` (written in decimal by `%d`), `Count: 1`. -/
def DelayedConsumer.query (rq : RedisQueue) (env : DelayedEnv) (s : Store) :
    Except String (List (Payload × Int)) × Store :=
  ZRangeByScoreWithScores env.rangeFails s (rq.queueName ++ ":delayed") 0 env.now 1

/-- Rest of a `DelayedConsumer` iteration once a candidate was found: `ZREM`
it, and on a non-zero count decode it and call the handler. -/
def DelayedConsumer.claim (rq : RedisQueue) (handler : Handler) (env : DelayedEnv)
    (messageStr : Payload) (s : Store) : Store × DelayedOutcome :=
  match ZRem env.remFails s (rq.queueName ++ ":delayed") messageStr with
  | (.error _, s1) => (s1, .removeFailed messageStr)
  | (.ok removed, s1) =>
    if removed = 0 then (s1, .alreadyClaimed messageStr)
    else
      match Unmarshal messageStr with
      | .error _ => (s1, .undecodable messageStr)
      | .ok message => (s1, .handled messageStr message (handler message))

/-- One iteration of the `DelayedConsumer` loop body (sleeping only lets time
pass). -/
def DelayedConsumer.body (rq : RedisQueue) (handler : Handler) (env : DelayedEnv) (s : Store) :
    Store × DelayedOutcome :=
  match DelayedConsumer.query rq env s with
  | (.error _, s1) => (s1, .queryFailed)
  | (.ok [], s1) => (s1, .nothingDue)
  | (.ok (r :: _), s1) => DelayedConsumer.claim rq handler env r.1 s1

/-- The `DelayedConsumer` loop, one iteration per element of `envs`; returns the
store and, in order, each iteration's clock reading and outcome. The
`delaySeconds` argument is not used by the loop. -/
def DelayedConsumer (rq : RedisQueue) (delaySeconds : Int) (handler : Handler) :
    List DelayedEnv → Store → Store × List (Int × DelayedOutcome)
  | [], s => (s, [])
  | env :: envs, s =>
    let r1 := DelayedConsumer.body rq handler env s
    let r := DelayedConsumer rq delaySeconds handler envs r1.1
    (r.1, (env.now, r1.2) :: r.2)

/-- `ProducerDelayed` called when the clock reads `now`; the score is
`float64(executeTime)`. -/
def ProducerDelayed (rq : RedisQueue) (now : Int) (addFails : Bool) (message : Message)
    (delaySeconds : Int) (s : Store) : Except String Unit × Store :=
  let delayedQueueName := rq.queueName ++ ":delayed"
  let executeTime := wrapInt64 (now + delaySeconds)
  match Marshal message with
  | .error e => (.error ("序列化延迟消息失败: " ++ e), s)
  | .ok messageJSON =>
    match ZAdd addFails s delayedQueueName (toFloat64 executeTime) messageJSON with
    | (.error e, s1) => (.error ("添加延迟消息失败: " ++ e), s1)
    | (.ok _, s1) => (.ok (), s1)

/-- `GetQueueLength`. -/
def GetQueueLength (rq : RedisQueue) (fails : Bool) (s : Store) :
    Except String Int × Store :=
  LLen fails s rq.queueName

/-! ## Several `DelayedConsumer` loops on one store -/

/-- Where a `DelayedConsumer` loop stands between two store calls. -/
inductive LoopState where
  | polling
  | selected (messageStr : Payload)
  deriving DecidableEq

/-- The shared store, the position of every loop, and the outcomes of the
claim steps so far, each with the loop that made it. -/
structure System where
  store : Store
  loops : Nat → LoopState
  trace : List (Nat × DelayedOutcome)

/-- Loop `i` performs its next store call atomically: the range query when
polling, the `ZREM` (with the handler call that follows it) when it holds a
candidate. -/
def DelayedConsumer.step (rq : RedisQueue) (handler : Handler) (i : Nat) (env : DelayedEnv)
    (sys : System) : System :=
  match sys.loops i with
  | .polling =>
    match DelayedConsumer.query rq env sys.store with
    | (.ok (r :: _), s1) =>
      { sys with store := s1, loops := fun j => if j = i then .selected r.1 else sys.loops j }
    | (_, s1) => { sys with store := s1 }
  | .selected messageStr =>
    let r := DelayedConsumer.claim rq handler env messageStr sys.store
    { store := r.1
      loops := fun j => if j = i then .polling else sys.loops j
      trace := sys.trace ++ [(i, r.2)] }

/-- An interleaving of the loops: each element names the loop that runs its
next store call, with that call's readings. -/
def DelayedConsumer.interleave (rq : RedisQueue) (handler : Handler) :
    List (Nat × DelayedEnv) → System → System
  | [], sys => sys
  | (i, env) :: rest, sys =>
    DelayedConsumer.interleave rq handler rest (DelayedConsumer.step rq handler i env sys)

/-- The outcome of a claim step whose `ZREM` of `p` reported a non-zero
count. -/
def DelayedOutcome.claimed (p : Payload) : DelayedOutcome → Bool
  | .undecodable q => decide (q = p)
  | .handled q _ _ => decide (q = p)
  | _ => false

/-- The outcome of a claim step whose `ZREM` of `p` reported a count, zero or
not. -/
def DelayedOutcome.counted (p : Payload) : DelayedOutcome → Bool
  | .alreadyClaimed q => decide (q = p)
  | .undecodable q => decide (q = p)
  | .handled q _ _ => decide (q = p)
  | _ => false

/-- What a loop does after a non-zero count for `p`: the handler is called on
the decoded message, or the payload does not decode. -/
def claimOutcome (p : Payload) (handler : Handler) (c : DelayedOutcome) : Prop :=
  (∃ x, Unmarshal p = .error x ∧ c = .undecodable p) ∨
  (∃ m, Unmarshal p = .ok m ∧ c = .handled p m (handler m))

/-- The situation of payload `p` while loops run and nothing is added to the
delayed set: its entry is present and no `ZREM` of it has reported a count; or
it is absent and was never selected; or it is absent, the first `ZREM` of it
that reported a count reported a non-zero one, and all later ones zero. -/
def claimInv (rq : RedisQueue) (handler : Handler) (p : Payload) (sys : System) : Prop :=
  ((sys.store.zsets (rq.queueName ++ ":delayed")).map Prod.fst).Nodup ∧
  (((∃ e ∈ sys.store.zsets (rq.queueName ++ ":delayed"), e.1 = p) ∧
      sys.trace.filter (fun x => x.2.counted p) = []) ∨
    ((∀ e ∈ sys.store.zsets (rq.queueName ++ ":delayed"), e.1 ≠ p) ∧
      sys.trace.filter (fun x => x.2.counted p) = [] ∧
      ∀ i, sys.loops i ≠ .selected p) ∨
    ((∀ e ∈ sys.store.zsets (rq.queueName ++ ":delayed"), e.1 ≠ p) ∧
      ∃ i c rest, sys.trace.filter (fun x => x.2.counted p) = (i, c) :: rest ∧
        claimOutcome p handler c ∧ ∀ x ∈ rest, x.2 = .alreadyClaimed p))

/-! ## Scenarios -/

/-- A server holding no keys. -/
def Store.empty : Store := { lists := fun _ => [], zsets := fun _ => [] }

/-- The queue created in `main`. -/
def taskQueue : RedisQueue := NewRedisQueue "task_queue"

/-- The failing message of `main`: `{id: "msg_2", data: {fail: true}, retry: 0}`. -/
def msg2 : Message :=
  { ID := "msg_2", Data := some (.cons "fail" (.bool true) .nil),
    Timestamp := 1700000000, Retry := 0 }

/-- A handler that fails on every message. -/
def alwaysFails : Handler := fun _ => .error "模拟处理失败"

/-- A handler that succeeds on every message. -/
def neverFails : Handler := fun _ => .ok ()

/-- An iteration in which no store call fails. -/
def calm : ConsumerEnv := { popFails := false, pushFails := false }

/-- An iteration of the delayed loop at clock reading `now` in which no store
call fails. -/
def calmAt (now : Int) : DelayedEnv := { now := now, rangeFails := false, remFails := false }

/-- A delayed message of `main`. -/
def msg1 : Message :=
  { ID := "msg_1", Data := some (.cons "fail" (.bool false) .nil),
    Timestamp := 1700000000, Retry := 0 }

/-- Another delayed message of `main`. -/
def msg3 : Message :=
  { ID := "msg_3", Data := some (.cons "fail" (.bool false) .nil),
    Timestamp := 1700000000, Retry := 0 }

/-- The serialization of a message of the scenarios. -/
def wire (id : String) (fail : Bool) (retry : Int) : Payload :=
  .json (.obj (.cons "id" (.str id) (.cons "data" (.obj (.cons "fail" (.bool fail) .nil))
    (.cons "timestamp" (.num (.int 1700000000)) (.cons "retry" (.num (.int retry)) .nil)))))

/-- The store after `ProducerDelayed(msg1, -1700000005)` at time 1700000000,
which gives the entry the score -5. -/
def pastStore : Store :=
  (ProducerDelayed taskQueue 1700000000 false msg1 (-1700000005) Store.empty).2

/-- The store `pastStore` after `ProducerDelayed(msg3, 3)` at time 1700000000. -/
def pastAndDueStore : Store :=
  (ProducerDelayed taskQueue 1700000000 false msg3 3 pastStore).2

/-- All loops polling, nothing traced yet. -/
def System.start (s : Store) : System :=
  { store := s, loops := fun _ => .polling, trace := [] }

/-- Two loops, each making a range query and then its `ZREM`, the queries
first. -/
def twoLoops : List (Nat × DelayedEnv) :=
  [(0, calmAt 1700000010), (1, calmAt 1700000010), (0, calmAt 1700000010),
    (1, calmAt 1700000010)]

/-- An iteration in which the pop succeeds and the push fails. -/
def pushDown : ConsumerEnv := { popFails := false, pushFails := true }

/-- What a `Consumer` iteration leaves: the queue, the dead-letter list and the
outcome. -/
def Consumer.bodyView (rq : RedisQueue) (handler : Handler) (env : ConsumerEnv) (s : Store) :
    Option (List Payload × List Payload × ConsumerOutcome) :=
  match Consumer.body rq handler env s with
  | none => none
  | some r => some (r.1.lists rq.queueName, r.1.lists (rq.queueName ++ ":dead"), r.2)

/-- A configuration asking for five retries. -/
def fiveRetries : Config := { NewConfig (fun _ => "") with MaxRetry := 5 }

theorem ltChars_irrefl (a : List Char) : ltChars a a = false := by
  induction a with
  | nil => rfl
  | cons x xs ih => simp [ltChars, ih]

theorem ltChars_trans : ∀ (a b c : List Char),
    ltChars a b = true → ltChars b c = true → ltChars a c = true
  | [], [], _, h, _ => by simp [ltChars] at h
  | [], _ :: _, [], _, h => by simp [ltChars] at h
  | [], _ :: _, _ :: _, _, _ => by simp [ltChars]
  | _ :: _, [], _, h, _ => by simp [ltChars] at h
  | _ :: _, _ :: _, [], _, h => by simp [ltChars] at h
  | x :: xs, y :: ys, z :: zs, h1, h2 => by
    simp only [ltChars] at h1 h2 ⊢
    split_ifs at h1 h2 ⊢ <;>
      first
        | rfl
        | omega
        | exact ltChars_trans xs ys zs h1 h2

theorem ltChars_total : ∀ (a b : List Char),
    a ≠ b → ltChars a b = false → ltChars b a = true
  | [], [], h, _ => absurd rfl h
  | [], _ :: _, _, h => by simp [ltChars] at h
  | _ :: _, [], _, _ => by simp [ltChars]
  | x :: xs, y :: ys, hne, h => by
    simp only [ltChars] at h ⊢
    by_cases hxy : x.toNat < y.toNat
    · simp [hxy] at h
    · by_cases hxy2 : x.toNat = y.toNat
      · have hc : x = y := by
          have := congrArg Char.ofNat hxy2
          simpa using this
        subst hc
        simp only [hxy, if_true, if_false] at h
        have hne2 : xs ≠ ys := fun e => hne (by rw [e])
        have := ltChars_total xs ys hne2 (by simpa using h)
        simp [this]
      · have : y.toNat < x.toNat := by omega
        simp [this]

theorem keyLt_irrefl (a : String) : ¬ keyLt a a := by
  simp [keyLt, ltChars_irrefl]

theorem keyLt_trans {a b c : String} (h1 : keyLt a b) (h2 : keyLt b c) : keyLt a c :=
  ltChars_trans _ _ _ h1 h2

theorem keyLt_asymm {a b : String} (h : keyLt a b) : ¬ keyLt b a :=
  fun h2 => keyLt_irrefl a (keyLt_trans h h2)

theorem keyLt_ne {a b : String} (h : keyLt a b) : a ≠ b :=
  fun e => keyLt_irrefl a (e ▸ h)

theorem keyLt_total {a b : String} (hne : a ≠ b) (h : ¬ keyLt a b) : keyLt b a := by
  apply ltChars_total
  · intro e
    exact hne (String.ext e)
  · simpa [keyLt] using h

/-! ## Maps and the JSON encoding -/

theorem GoMap.keys_append : ∀ (a b : GoMap), (a.append b).keys = a.keys ++ b.keys
  | .nil, _ => rfl
  | .cons k v tl, b => by simp [GoMap.append, GoMap.keys, GoMap.keys_append tl b]

theorem GoMap.append_nil : ∀ (a : GoMap), a.append .nil = a
  | .nil => rfl
  | .cons k v tl => by simp [GoMap.append, GoMap.append_nil tl]

theorem GoMap.append_cons : ∀ (a : GoMap) (k : String) (v : GoValue) (tl : GoMap),
    (a.append (.cons k v .nil)).append tl = a.append (.cons k v tl)
  | .nil, _, _, _ => rfl
  | .cons k0 v0 t, k, v, tl => by simp [GoMap.append, GoMap.append_cons t k v tl]

/-- Setting a key above all present keys adds the entry at the end. -/
theorem GoMap.set_of_keys_lt : ∀ (acc : GoMap) (k : String) (v : GoValue),
    (∀ a ∈ acc.keys, keyLt a k) → acc.set k v = acc.append (.cons k v .nil)
  | .nil, _, _, _ => rfl
  | .cons k0 v0 tl, k, v, h => by
    have h0 : keyLt k0 k := h k0 (by simp [GoMap.keys])
    have hne : k ≠ k0 := fun e => keyLt_ne h0 e.symm
    have hnl : ¬ keyLt k k0 := keyLt_asymm h0
    have ht : ∀ a ∈ tl.keys, keyLt a k := fun a ha => h a (by simp [GoMap.keys, ha])
    simp [GoMap.set, hne, hnl, GoMap.append, GoMap.set_of_keys_lt tl k v ht]

theorem floatLit_value (x : ℚ) : (floatLit x).value = x := by
  unfold floatLit
  split
  · next h => simpa [NumLit.value] using Rat.coe_int_num_of_den_eq_one h.1
  · rfl

mutual
/-- Decoding the encoding of a value of decoder kinds gives the value back. -/
theorem GoValue.decode_encode_value : ∀ (v : GoValue), v.jsonNative → v.wellFormed →
    ∃ j, v.encode = some j ∧ j.decode = v
  | .null, _, _ => ⟨.null, rfl, rfl⟩
  | .bool b, _, _ => ⟨.bool b, rfl, rfl⟩
  | .int _, h, _ => by simp [GoValue.jsonNative] at h
  | .float64 x, _, _ => ⟨.num (floatLit x), rfl, by simp [Json.decode, floatLit_value]⟩
  | .str s, _, _ => ⟨.str s, rfl, rfl⟩
  | .slice xs, hn, hw => by
    obtain ⟨js, h1, h2⟩ := GoSlice.decode_encode_slice xs
      (by simpa [GoValue.jsonNative] using hn) (by simpa [GoValue.wellFormed] using hw)
    exact ⟨.arr js, by simp [GoValue.encode, h1], by simp [Json.decode, h2]⟩
  | .map kvs, hn, hw => by
    obtain ⟨ms, h1, h2⟩ := GoMap.decode_encode_map kvs
      (by simpa [GoValue.jsonNative] using hn) (by simpa [GoValue.wellFormed] using hw)
    refine ⟨.obj ms, by simp [GoValue.encode, h1], ?_⟩
    have := h2 .nil (by simp [GoMap.keys])
    simp [Json.decode, this, GoMap.append]
  | .nilSlice, h, _ => by simp [GoValue.jsonNative] at h
  | .nilMap, h, _ => by simp [GoValue.jsonNative] at h
  | .nonFinite, h, _ => by simp [GoValue.jsonNative] at h
  | .chan, h, _ => by simp [GoValue.jsonNative] at h
/-- Element-wise round trip of a slice. -/
theorem GoSlice.decode_encode_slice : ∀ (xs : GoSlice), xs.jsonNative → xs.wellFormed →
    ∃ js, xs.encode = some js ∧ js.decode = xs
  | .nil, _, _ => ⟨.nil, rfl, rfl⟩
  | .cons v tl, hn, hw => by
    simp only [GoSlice.jsonNative] at hn
    simp only [GoSlice.wellFormed] at hw
    obtain ⟨j, h1, h2⟩ := GoValue.decode_encode_value v hn.1 hw.1
    obtain ⟨js, h3, h4⟩ := GoSlice.decode_encode_slice tl hn.2 hw.2
    exact ⟨.cons j js, by simp [GoSlice.encode, h1, h3], by simp [JsonArr.decode, h2, h4]⟩
/-- Decoding the members written for a canonical map, into a map whose keys are
all smaller, adds the entries at the end. -/
theorem GoMap.decode_encode_map : ∀ (kvs : GoMap), kvs.jsonNative → kvs.wellFormed →
    ∃ ms, kvs.encode = some ms ∧
      ∀ acc : GoMap, (∀ a ∈ acc.keys, ∀ b ∈ kvs.keys, keyLt a b) →
        ms.decodeInto acc = acc.append kvs
  | .nil, _, _ => ⟨.nil, rfl, fun acc _ => by simp [JsonObj.decodeInto, GoMap.append_nil]⟩
  | .cons k v tl, hn, hw => by
    simp only [GoMap.jsonNative] at hn
    simp only [GoMap.wellFormed] at hw
    obtain ⟨j, h1, h2⟩ := GoValue.decode_encode_value v hn.1 hw.2.1
    obtain ⟨ms, h3, h4⟩ := GoMap.decode_encode_map tl hn.2 hw.2.2
    refine ⟨.cons k j ms, by simp [GoMap.encode, h1, h3], ?_⟩
    intro acc hacc
    have hk : ∀ a ∈ acc.keys, keyLt a k := fun a ha => hacc a ha k (by simp [GoMap.keys])
    simp only [JsonObj.decodeInto, h2, GoMap.set_of_keys_lt acc k v hk]
    rw [h4, GoMap.append_cons]
    intro a ha b hb
    rw [GoMap.keys_append] at ha
    simp only [GoMap.keys, List.mem_append, List.mem_singleton, List.mem_cons,
      List.not_mem_nil, or_false] at ha
    rcases ha with ha | ha
    · exact hacc a ha b (by simp [GoMap.keys, hb])
    · subst ha
      exact hw.1 b hb
end

theorem GoMap.keys_set : ∀ (acc : GoMap) (k : String) (v : GoValue),
    ∀ b ∈ (acc.set k v).keys, b = k ∨ b ∈ acc.keys
  | .nil, k, v, b, hb => by simpa [GoMap.set, GoMap.keys] using hb
  | .cons k0 v0 tl, k, v, b, hb => by
    simp only [GoMap.set] at hb
    split_ifs at hb with h1 h2
    · simp only [GoMap.keys, List.mem_cons] at hb ⊢
      rcases hb with hb | hb
      · exact Or.inl hb
      · exact Or.inr (Or.inr hb)
    · simp only [GoMap.keys, List.mem_cons] at hb ⊢
      exact hb
    · simp only [GoMap.keys, List.mem_cons] at hb ⊢
      rcases hb with hb | hb
      · exact Or.inr (Or.inl hb)
      · rcases GoMap.keys_set tl k v b hb with h | h
        · exact Or.inl h
        · exact Or.inr (Or.inr h)

/-- `m[k] = v` keeps a map in canonical form. -/
theorem GoMap.set_wellFormed : ∀ (acc : GoMap) (k : String) (v : GoValue),
    acc.wellFormed → v.wellFormed → (acc.set k v).wellFormed
  | .nil, k, v, _, hv => by simp [GoMap.set, GoMap.wellFormed, GoMap.keys, hv]
  | .cons k0 v0 tl, k, v, ha, hv => by
    simp only [GoMap.wellFormed] at ha
    simp only [GoMap.set]
    split_ifs with h1 h2
    · subst h1
      simp only [GoMap.wellFormed]
      exact ⟨ha.1, hv, ha.2.2⟩
    · simp only [GoMap.wellFormed, GoMap.keys, List.mem_cons]
      refine ⟨?_, hv, ha.1, ha.2.1, ha.2.2⟩
      intro b hb
      rcases hb with hb | hb
      · subst hb
        exact h2
      · exact keyLt_trans h2 (ha.1 b hb)
    · simp only [GoMap.wellFormed]
      refine ⟨?_, ha.2.1, GoMap.set_wellFormed tl k v ha.2.2 hv⟩
      intro b hb
      rcases GoMap.keys_set tl k v b hb with h | h
      · subst h
        exact keyLt_total h1 h2
      · exact ha.1 b h

theorem GoMap.set_jsonNative : ∀ (acc : GoMap) (k : String) (v : GoValue),
    acc.jsonNative → v.jsonNative → (acc.set k v).jsonNative
  | .nil, k, v, _, hv => by simp [GoMap.set, GoMap.jsonNative, hv]
  | .cons k0 v0 tl, k, v, ha, hv => by
    simp only [GoMap.jsonNative] at ha
    simp only [GoMap.set]
    split_ifs with h1 h2
    · simp only [GoMap.jsonNative]
      exact ⟨hv, ha.2⟩
    · simp only [GoMap.jsonNative]
      exact ⟨hv, ha.1, ha.2⟩
    · simp only [GoMap.jsonNative]
      exact ⟨ha.1, GoMap.set_jsonNative tl k v ha.2 hv⟩

mutual
/-- Whatever the decoder builds is of decoder kinds, with canonical maps. -/
theorem Json.decode_image_value : ∀ (j : Json), j.decode.jsonNative ∧ j.decode.wellFormed
  | .null => by simp [Json.decode, GoValue.jsonNative, GoValue.wellFormed]
  | .bool _ => by simp [Json.decode, GoValue.jsonNative, GoValue.wellFormed]
  | .num _ => by simp [Json.decode, GoValue.jsonNative, GoValue.wellFormed]
  | .str _ => by simp [Json.decode, GoValue.jsonNative, GoValue.wellFormed]
  | .arr xs => by
    simpa [Json.decode, GoValue.jsonNative, GoValue.wellFormed] using JsonArr.decode_image_arr xs
  | .obj ms => by
    have := JsonObj.decodeInto_image ms .nil (by simp [GoMap.jsonNative])
      (by simp [GoMap.wellFormed])
    simpa [Json.decode, GoValue.jsonNative, GoValue.wellFormed] using this
/-- Element-wise image property of array decoding. -/
theorem JsonArr.decode_image_arr : ∀ (xs : JsonArr), xs.decode.jsonNative ∧ xs.decode.wellFormed
  | .nil => by simp [JsonArr.decode, GoSlice.jsonNative, GoSlice.wellFormed]
  | .cons v tl => by
    have h1 := Json.decode_image_value v
    have h2 := JsonArr.decode_image_arr tl
    simp [JsonArr.decode, GoSlice.jsonNative, GoSlice.wellFormed, h1, h2]
/-- Decoding members into a canonical map of decoder kinds gives such a map. -/
theorem JsonObj.decodeInto_image : ∀ (ms : JsonObj) (acc : GoMap),
    acc.jsonNative → acc.wellFormed →
    (ms.decodeInto acc).jsonNative ∧ (ms.decodeInto acc).wellFormed
  | .nil, acc, hn, hw => by simp [JsonObj.decodeInto, hn, hw]
  | .cons k v tl, acc, hn, hw => by
    have h1 := Json.decode_image_value v
    simp only [JsonObj.decodeInto]
    exact JsonObj.decodeInto_image tl _ (GoMap.set_jsonNative acc k _ hn h1.1)
      (GoMap.set_wellFormed acc k _ hw h1.2)
end

/-! ## Message wire format -/

theorem Message.setField_image (m m1 : Message) (k : String) (v : Json)
    (hw : m.wellFormed) (hn : m.jsonNative) (h : m.setField k v = .ok m1) :
    m1.wellFormed ∧ m1.jsonNative := by
  unfold Message.setField at h
  split_ifs at h
  · split at h
    · cases h; exact ⟨hw, hn⟩
    · cases h; exact ⟨hw, hn⟩
    · cases h
  · split at h
    · cases h
      exact ⟨⟨hw.1, hw.2.1, trivial⟩, trivial⟩
    · next ms =>
      cases h
      have hacc : (m.Data.getD GoMap.nil).jsonNative ∧ (m.Data.getD GoMap.nil).wellFormed := by
        unfold Message.wellFormed at hw
        unfold Message.jsonNative at hn
        cases hd : m.Data with
        | none => simp [GoMap.jsonNative, GoMap.wellFormed]
        | some kvs =>
          rw [hd] at hw hn
          exact ⟨hn, hw.2.2⟩
      have := JsonObj.decodeInto_image ms _ hacc.1 hacc.2
      exact ⟨⟨hw.1, hw.2.1, this.2⟩, this.1⟩
    · cases h
  · split at h
    · cases h; exact ⟨hw, hn⟩
    · split_ifs at h with hr
      cases h
      exact ⟨⟨hr, hw.2.1, hw.2.2⟩, hn⟩
    · cases h
  · split at h
    · cases h; exact ⟨hw, hn⟩
    · split_ifs at h with hr
      cases h
      exact ⟨⟨hw.1, hr, hw.2.2⟩, hn⟩
    · cases h
  · cases h; exact ⟨hw, hn⟩

theorem JsonObj.decodeStruct_image : ∀ (ms : JsonObj) (m m1 : Message),
    m.wellFormed → m.jsonNative → ms.decodeStruct m = .ok m1 →
    m1.wellFormed ∧ m1.jsonNative
  | .nil, m, m1, hw, hn, h => by
    simp only [JsonObj.decodeStruct] at h
    cases h
    exact ⟨hw, hn⟩
  | .cons k v tl, m, m1, hw, hn, h => by
    simp only [JsonObj.decodeStruct] at h
    split at h
    · next m2 h2 =>
      have := Message.setField_image m m2 k v hw hn h2
      exact JsonObj.decodeStruct_image tl m2 m1 this.1 this.2 h
    · cases h

theorem Message.zero_wellFormed : Message.zero.wellFormed ∧ Message.zero.jsonNative := by
  refine ⟨⟨?_, ?_, trivial⟩, trivial⟩ <;> simp [Message.zero, inInt64]

/-- A decoded message is a well-formed Go value whose data is of decoder
kinds. -/
theorem Unmarshal_image (p : Payload) (m : Message) (h : Unmarshal p = .ok m) :
    m.wellFormed ∧ m.jsonNative := by
  unfold Unmarshal at h
  split at h
  · cases h
    exact Message.zero_wellFormed
  · exact JsonObj.decodeStruct_image _ _ _ Message.zero_wellFormed.1
      Message.zero_wellFormed.2 h
  · cases h
  · cases h

theorem fieldMatch_wire :
    fieldMatch "id" "id" = true ∧
    fieldMatch "data" "id" = false ∧ fieldMatch "data" "data" = true ∧
    fieldMatch "timestamp" "id" = false ∧ fieldMatch "timestamp" "data" = false ∧
    fieldMatch "timestamp" "timestamp" = true ∧
    fieldMatch "retry" "id" = false ∧ fieldMatch "retry" "data" = false ∧
    fieldMatch "retry" "timestamp" = false ∧ fieldMatch "retry" "retry" = true := by
  decide

theorem setField_id (m : Message) (s : String) :
    m.setField "id" (.str s) = .ok { m with ID := s } := by
  unfold Message.setField
  simp [fieldMatch_wire.1]

theorem setField_data_null (m : Message) :
    m.setField "data" .null = .ok { m with Data := none } := by
  obtain ⟨_, f2, f3, _⟩ := fieldMatch_wire
  unfold Message.setField
  simp [f2, f3]

theorem setField_data_obj (m : Message) (ms : JsonObj) :
    m.setField "data" (.obj ms) =
      .ok { m with Data := some (JsonObj.decodeInto ms (m.Data.getD .nil)) } := by
  obtain ⟨_, f2, f3, _⟩ := fieldMatch_wire
  unfold Message.setField
  simp [f2, f3]

theorem setField_timestamp (m : Message) (n : Int) (h : inInt64 n) :
    m.setField "timestamp" (.num (.int n)) = .ok { m with Timestamp := n } := by
  obtain ⟨_, _, _, f4, f5, f6, _⟩ := fieldMatch_wire
  unfold Message.setField
  simp [f4, f5, f6, h]

theorem setField_retry (m : Message) (n : Int) (h : inInt64 n) :
    m.setField "retry" (.num (.int n)) = .ok { m with Retry := n } := by
  obtain ⟨_, _, _, _, _, _, f7, f8, f9, f10⟩ := fieldMatch_wire
  unfold Message.setField
  simp [f7, f8, f9, f10, h]

/-- Decoding the four members written by `Marshal`, the data member being
`null` or an object. -/
theorem decodeStruct_wire (m : Message) (d : Json) (data : Option GoMap)
    (ht : inInt64 m.Timestamp) (hr : inInt64 m.Retry)
    (hd : (d = .null ∧ data = none) ∨
      (∃ ms, d = .obj ms ∧ data = some (JsonObj.decodeInto ms .nil))) :
    Unmarshal (.json (.obj (.cons "id" (.str m.ID) (.cons "data" d
      (.cons "timestamp" (.num (.int m.Timestamp))
      (.cons "retry" (.num (.int m.Retry)) .nil)))))) =
    .ok { ID := m.ID, Data := data, Timestamp := m.Timestamp, Retry := m.Retry } := by
  rcases hd with ⟨rfl, rfl⟩ | ⟨ms, rfl, rfl⟩
  · simp [Unmarshal, JsonObj.decodeStruct, Message.zero, setField_id, setField_data_null,
      setField_timestamp, setField_retry, ht, hr]
  · simp [Unmarshal, JsonObj.decodeStruct, Message.zero, setField_id, setField_data_obj,
      setField_timestamp, setField_retry, ht, hr]

/-- A well-formed message with data of decoder kinds is accepted by `Marshal`
and decodes to itself. -/
theorem Unmarshal_Marshal_native (m : Message) (hw : m.wellFormed) (hn : m.jsonNative) :
    ∃ p, Marshal m = .ok p ∧ Unmarshal p = .ok m := by
  obtain ⟨ID, Data, Timestamp, Retry⟩ := m
  unfold Message.wellFormed at hw
  unfold Message.jsonNative at hn
  cases Data with
  | none =>
    exact ⟨_, by simp [Marshal, encodeData],
      decodeStruct_wire ⟨ID, none, Timestamp, Retry⟩ .null none hw.1 hw.2.1 (Or.inl ⟨rfl, rfl⟩)⟩
  | some kvs =>
    obtain ⟨ms, h1, h2⟩ := GoMap.decode_encode_map kvs hn hw.2.2
    have h3 := h2 .nil (by simp [GoMap.keys])
    simp only [GoMap.append] at h3
    have hm : Marshal ⟨ID, some kvs, Timestamp, Retry⟩ =
        .ok (.json (.obj (.cons "id" (.str ID) (.cons "data" (.obj ms)
          (.cons "timestamp" (.num (.int Timestamp))
          (.cons "retry" (.num (.int Retry)) .nil)))))) := by
      simp [Marshal, encodeData, h1]
    exact ⟨_, hm, decodeStruct_wire ⟨ID, some kvs, Timestamp, Retry⟩ (.obj ms) (some kvs)
      hw.1 hw.2.1 (Or.inr ⟨ms, rfl, by rw [h3]⟩)⟩

/-! ## Key names -/

theorem append_suffix_ne (q suffix : String) (h : 0 < suffix.length) : q ++ suffix ≠ q := by
  intro e
  have := congrArg String.length e
  rw [String.length_append] at this
  omega

theorem dead_ne (q : String) : q ++ ":dead" ≠ q :=
  append_suffix_ne q ":dead" (by decide)

/-! ## Producer and the length accessor -/

theorem Producer_ok (rq : RedisQueue) (m : Message) (p : Payload) (s : Store)
    (h : Marshal m = .ok p) :
    Producer rq false m s = (.ok (), s.setList rq.queueName (p :: s.lists rq.queueName)) := by
  simp [Producer, h, LPush]

theorem Producer_cases (rq : RedisQueue) (pushFails : Bool) (m : Message) (s : Store) :
    (∃ p, Marshal m = .ok p ∧ pushFails = false ∧
      Producer rq pushFails m s =
        (.ok (), s.setList rq.queueName (p :: s.lists rq.queueName))) ∨
    (∃ e, Producer rq pushFails m s = (.error e, s)) := by
  unfold Producer
  cases hm : Marshal m with
  | error e => exact Or.inr ⟨_, rfl⟩
  | ok p =>
    cases pushFails with
    | true => exact Or.inr ⟨"推送消息到队列失败: " ++ "redis: command failed", by simp [LPush]⟩
    | false => exact Or.inl ⟨p, rfl, rfl, by simp [LPush]⟩

/-- C9. A `Producer` call that returns no error makes `GetQueueLength` one
greater and leaves every sorted set and every other list (the dead-letter list
among them) as it was; a call that returns an error leaves the store as it
was; `GetQueueLength` returns the number of entries of the list `queueName`,
whatever the other keys hold, and leaves the store as it was. -/
theorem producer_depth_and_introspection (rq : RedisQueue) (s : Store) (m : Message)
    (pushFails : Bool) :
    ((Producer rq pushFails m s).1 = .ok () →
      (GetQueueLength rq false (Producer rq pushFails m s).2).1 =
        .ok (((s.lists rq.queueName).length : Int) + 1) ∧
      (Producer rq pushFails m s).2.zsets = s.zsets ∧
      (Producer rq pushFails m s).2.lists (rq.queueName ++ ":dead") =
        s.lists (rq.queueName ++ ":dead") ∧
      ∀ k, k ≠ rq.queueName → (Producer rq pushFails m s).2.lists k = s.lists k) ∧
    ((Producer rq pushFails m s).1 ≠ .ok () →
      (Producer rq pushFails m s).2.lists = s.lists ∧
      (Producer rq pushFails m s).2.zsets = s.zsets) ∧
    (GetQueueLength rq false s).1 = .ok ((s.lists rq.queueName).length : Int) ∧
    (∀ s2 : Store, s2.lists rq.queueName = s.lists rq.queueName →
      (GetQueueLength rq false s2).1 = (GetQueueLength rq false s).1) ∧
    (∀ fails, (GetQueueLength rq fails s).2 = s) := by
  refine ⟨?_, ?_, ?_, ?_, ?_⟩
  · intro hok
    rcases Producer_cases rq pushFails m s with ⟨p, _, _, h⟩ | ⟨e, h⟩
    · rw [h]
      refine ⟨?_, rfl, ?_, ?_⟩
      · simp [GetQueueLength, LLen, Store.setList]
      · simp [Store.setList, dead_ne]
      · intro k hk
        simp [Store.setList, hk]
    · rw [h] at hok
      cases hok
  · intro hne
    rcases Producer_cases rq pushFails m s with ⟨p, _, _, h⟩ | ⟨e, h⟩
    · rw [h] at hne
      exact absurd rfl hne
    · rw [h]
      exact ⟨rfl, rfl⟩
  · simp [GetQueueLength, LLen]
  · intro s2 h2
    simp [GetQueueLength, LLen, h2]
  · intro fails
    cases fails <;> simp [GetQueueLength, LLen]

/-! ## Store updates -/

theorem Store.setList_setList (s : Store) (k : String) (a b : List Payload) :
    (s.setList k a).setList k b = s.setList k b := by
  unfold Store.setList
  congr 1
  funext j
  by_cases h : j = k <;> simp [h]

theorem Store.setList_lists_same (s : Store) (k : String) (a : List Payload) :
    (s.setList k a).lists k = a := by
  simp [Store.setList]

theorem Store.setList_lists_other (s : Store) (k j : String) (a : List Payload) (h : j ≠ k) :
    (s.setList k a).lists j = s.lists j := by
  simp [Store.setList, h]

theorem Store.setList_zsets (s : Store) (k : String) (a : List Payload) :
    (s.setList k a).zsets = s.zsets := rfl

theorem Store.setZSet_lists (s : Store) (k : String) (z : List (Payload × Int)) :
    (s.setZSet k z).lists = s.lists := rfl

theorem Store.setZSet_zsets_same (s : Store) (k : String) (z : List (Payload × Int)) :
    (s.setZSet k z).zsets k = z := by
  simp [Store.setZSet]

theorem Store.setZSet_zsets_other (s : Store) (k j : String) (z : List (Payload × Int))
    (h : j ≠ k) : (s.setZSet k z).zsets j = s.zsets j := by
  simp [Store.setZSet, h]

/-! ## The Consumer loop body -/

theorem BRPop_ok (s : Store) (key : String) (l : List Payload) (p : Payload)
    (h : s.lists key = l ++ [p]) :
    BRPop false s key = some (.ok p, s.setList key l) := by
  simp [BRPop, h]

/-- The message after `Retry++` of a decoded message below the retry limit is
accepted by `Marshal` and decodes to itself. -/
theorem retry_message_wire (p : Payload) (m : Message) (hu : Unmarshal p = .ok m)
    (n : Int) (hn : inInt64 n) :
    ∃ p1, Marshal { m with Retry := n } = .ok p1 ∧
      Unmarshal p1 = .ok { m with Retry := n } := by
  have hi := Unmarshal_image p m hu
  apply Unmarshal_Marshal_native
  · exact ⟨hi.1.1, hn, hi.1.2.2⟩
  · exact hi.2

/-- Body of an iteration that pops a decodable message below the retry limit
whose handler fails, all store calls succeeding. -/
theorem Consumer.body_retry (rq : RedisQueue) (handler : Handler) (env : ConsumerEnv)
    (s : Store) (l : List Payload) (p p1 : Payload) (m : Message) (e : String)
    (hl : s.lists rq.queueName = l ++ [p])
    (hpop : env.popFails = false) (hpush : env.pushFails = false)
    (hu : Unmarshal p = .ok m) (hh : handler m = .error e) (hr : m.Retry < 3)
    (hm : Marshal { m with Retry := m.Retry + 1 } = .ok p1) :
    Consumer.body rq handler env s =
      some (s.setList rq.queueName (p1 :: l),
        .retried { m with Retry := m.Retry + 1 } true) := by
  unfold Consumer.body
  rw [hpop, BRPop_ok s _ l p hl]
  simp only [hu, hh, hr, if_true, hpush]
  rw [Producer_ok rq _ p1 _ hm]
  simp [Store.setList_setList, Store.setList_lists_same]

/-- Body of an iteration that pops a decodable message at or above the retry
limit whose handler fails. -/
theorem Consumer.body_dead (rq : RedisQueue) (handler : Handler) (env : ConsumerEnv)
    (s : Store) (l : List Payload) (p : Payload) (m : Message) (e : String)
    (hl : s.lists rq.queueName = l ++ [p])
    (hpop : env.popFails = false)
    (hu : Unmarshal p = .ok m) (hh : handler m = .error e) (hr : ¬ m.Retry < 3) :
    Consumer.body rq handler env s =
      some (moveToDeadLetter rq env.pushFails m (s.setList rq.queueName l),
        .deadLettered m) := by
  unfold Consumer.body
  rw [hpop, BRPop_ok s _ l p hl]
  simp only [hu, hh, hr, if_false]

theorem moveToDeadLetter_ok (rq : RedisQueue) (m : Message) (p : Payload) (s : Store)
    (hm : Marshal m = .ok p) :
    moveToDeadLetter rq false m s =
      s.setList (rq.queueName ++ ":dead") (p :: s.lists (rq.queueName ++ ":dead")) := by
  simp [moveToDeadLetter, hm, LPush]

theorem moveToDeadLetter_fail (rq : RedisQueue) (m : Message) (s : Store) :
    moveToDeadLetter rq true m s = s := by
  simp [moveToDeadLetter, LPush]

/-- C8. `moveToDeadLetter` on a queue named `q`, for a message with
serialization `p`: when the push succeeds the list `q:dead` gains exactly the
entry `p` (at the push end) and every other list, the list `q` among them, and
every sorted set, the set `q:delayed` among them, stay as they were; when the
push fails the store stays as it was; in both cases nothing is reported, and a
`Consumer` iteration that routes a message to the dead-letter list is followed
by the next iteration of the loop. -/
theorem dead_letter_routing (rq : RedisQueue) (m : Message) (p : Payload) (s : Store)
    (hm : Marshal m = .ok p) :
    (moveToDeadLetter rq false m s).lists (rq.queueName ++ ":dead") =
      p :: s.lists (rq.queueName ++ ":dead") ∧
    (∀ k, k ≠ rq.queueName ++ ":dead" → (moveToDeadLetter rq false m s).lists k = s.lists k) ∧
    (moveToDeadLetter rq false m s).lists rq.queueName = s.lists rq.queueName ∧
    (moveToDeadLetter rq false m s).zsets (rq.queueName ++ ":delayed") =
      s.zsets (rq.queueName ++ ":delayed") ∧
    (moveToDeadLetter rq false m s).zsets = s.zsets ∧
    moveToDeadLetter rq true m s = s ∧
    (∀ (handler : Handler) (env : ConsumerEnv) (envs : List ConsumerEnv) (s0 : Store)
      (l : List Payload) (p0 : Payload) (e : String),
      s0.lists rq.queueName = l ++ [p0] → env.popFails = false →
      Unmarshal p0 = .ok m → handler m = .error e → ¬ m.Retry < 3 →
      Consumer rq handler (env :: envs) s0 =
        ((Consumer rq handler envs
            (moveToDeadLetter rq env.pushFails m (s0.setList rq.queueName l))).1,
          .deadLettered m :: (Consumer rq handler envs
            (moveToDeadLetter rq env.pushFails m (s0.setList rq.queueName l))).2)) := by
  rw [moveToDeadLetter_ok rq m p s hm, moveToDeadLetter_fail]
  refine ⟨by simp [Store.setList], ?_, ?_, rfl, rfl, rfl, ?_⟩
  · intro k hk
    simp [Store.setList, hk]
  · simp [Store.setList, (dead_ne rq.queueName).symm]
  · intro handler env envs s0 l p0 e hl hpop hu hh hr
    simp [Consumer, Consumer.body_dead rq handler env s0 l p0 m e hl hpop hu hh hr]

/-- C6, counterexample. First, `msg_2` (retry count 0) is popped, its handler
fails and the push of the re-submission fails: the iteration discards the
error of `Producer`, and the message with retry count 1 is neither in the
queue nor in the dead-letter list. Second, with a retry maximum of 5
configured, the message with retry count 3, below that maximum, is not
re-submitted: it goes to the dead-letter list and the queue stays empty. -/
theorem retry_step_counterexample :
    msg2.Retry < 3 ∧
    Consumer.bodyView taskQueue alwaysFails pushDown
        (Producer taskQueue false msg2 Store.empty).2 =
      some ([], [], .retried { msg2 with Retry := 1 } false) ∧
    ({ msg2 with Retry := 3 } : Message).Retry < fiveRetries.MaxRetry ∧
    Consumer.bodyView (NewRedisQueue fiveRetries.QueueName) alwaysFails calm
        (Producer (NewRedisQueue fiveRetries.QueueName) false { msg2 with Retry := 3 }
          Store.empty).2 =
      some ([], [wire "msg_2" true 3], .deadLettered { msg2 with Retry := 3 }) := by
  decide!

/-- C6, amended. The retry maximum is the constant 3 the loop compares with
(the value `NewConfig` sets for `MaxRetry`; the loop does not read the
configuration). One `Consumer` iteration that pops a message `m` with
`m.Retry < 3` whose handler fails, the pop and the re-submission push
succeeding: the queue then holds the remaining entries with the serialization
of `m1` at the push end, opposite to the end `BRPOP` takes from, so `m1` is
consumed after all of them; `m1` is `m` with `Retry` one greater and decodes to
itself; the dead-letter list, every other list and every sorted set are
unchanged. -/
theorem retry_resubmission_step (rq : RedisQueue) (handler : Handler) (env : ConsumerEnv)
    (environ : String → String)
    (s : Store) (l : List Payload) (p : Payload) (m : Message) (e : String)
    (hl : s.lists rq.queueName = l ++ [p])
    (hpop : env.popFails = false) (hpush : env.pushFails = false)
    (hu : Unmarshal p = .ok m) (hh : handler m = .error e)
    (hr : m.Retry < 3) :
    (NewConfig environ).MaxRetry = 3 ∧
    ∃ p1 s1, Marshal { m with Retry := m.Retry + 1 } = .ok p1 ∧
      Unmarshal p1 = .ok { m with Retry := m.Retry + 1 } ∧
      Consumer.body rq handler env s =
        some (s1, .retried { m with Retry := m.Retry + 1 } true) ∧
      s1.lists rq.queueName = p1 :: l ∧
      s1.lists (rq.queueName ++ ":dead") = s.lists (rq.queueName ++ ":dead") ∧
      (∀ k, k ≠ rq.queueName → s1.lists k = s.lists k) ∧
      s1.zsets = s.zsets := by
  refine ⟨rfl, ?_⟩
  have hi := Unmarshal_image p m hu
  have hrange : inInt64 (m.Retry + 1) := by
    have := hi.1.2.1
    unfold inInt64 at this ⊢
    omega
  obtain ⟨p1, hm1, hu1⟩ := retry_message_wire p m hu (m.Retry + 1) hrange
  refine ⟨p1, s.setList rq.queueName (p1 :: l), hm1, hu1,
    Consumer.body_retry rq handler env s l p p1 m e hl hpop hpush hu hh hr hm1, ?_, ?_, ?_, rfl⟩
  · simp [Store.setList]
  · simp [Store.setList, dead_ne]
  · intro k hk
    simp [Store.setList, hk]

/-! ## Retry bound -/

instance scoreLe_total : IsTotal (Payload × Int) (fun a b => a.2 ≤ b.2) :=
  ⟨fun a b => le_total a.2 b.2⟩

instance scoreLe_trans : IsTrans (Payload × Int) (fun a b => a.2 ≤ b.2) :=
  ⟨fun _ _ _ h1 h2 => le_trans h1 h2⟩

theorem mem_zsetRemove (z : List (Payload × Int)) (p : Payload) (e : Payload × Int) :
    e ∈ zsetRemove z p ↔ e ∈ z ∧ e.1 ≠ p := by
  simp [zsetRemove, List.mem_filter]

theorem zsetCount_eq_zero (z : List (Payload × Int)) (p : Payload) :
    zsetCount z p = 0 ↔ ∀ e ∈ z, e.1 ≠ p := by
  unfold zsetCount
  rw [List.length_eq_zero, List.filter_eq_nil_iff]
  simp

/-- The first entry a range query returns lies in the set, has its score in the
range, and no entry of the set with score at least `lo` has a smaller score. -/
theorem range_head (z : List (Payload × Int)) (lo hi : Int) (r : Payload × Int)
    (rest : List (Payload × Int)) (h : zsetRange z lo hi 1 = r :: rest) :
    rest = [] ∧ r ∈ z ∧ lo ≤ r.2 ∧ r.2 ≤ hi ∧ ∀ e ∈ z, lo ≤ e.2 → r.2 ≤ e.2 := by
  unfold zsetRange at h
  cases hsort : List.insertionSort (fun a b : Payload × Int => a.2 ≤ b.2)
      (z.filter (fun e => decide (lo ≤ e.2) && decide (e.2 ≤ hi))) with
  | nil => simp [hsort] at h
  | cons x xs =>
    rw [hsort] at h
    simp only [List.take_succ_cons, List.take_zero, List.cons.injEq] at h
    obtain ⟨rfl, hrest⟩ := h
    have hmem : ∀ e, e ∈ x :: xs ↔
        e ∈ z.filter (fun e => decide (lo ≤ e.2) && decide (e.2 ≤ hi)) := by
      intro e
      rw [← hsort]
      exact List.mem_insertionSort _
    have hx : x ∈ z.filter (fun e => decide (lo ≤ e.2) && decide (e.2 ≤ hi)) :=
      (hmem x).1 (by simp)
    simp only [List.mem_filter, Bool.and_eq_true, decide_eq_true_eq] at hx
    have hsorted : List.Sorted (fun a b : Payload × Int => a.2 ≤ b.2) (x :: xs) := by
      rw [← hsort]
      exact List.sorted_insertionSort _ _
    refine ⟨hrest.symm, hx.1, hx.2.1, hx.2.2, ?_⟩
    intro e he hlo
    by_cases hhi : e.2 ≤ hi
    · have : e ∈ x :: xs := (hmem e).2 (by simp [List.mem_filter, he, hlo, hhi])
      rcases List.mem_cons.1 this with rfl | hxs
      · exact le_refl _
      · exact List.rel_of_sorted_cons hsorted e hxs
    · omega

/-- A range query returns an entry when some entry has its score in the
range. -/
theorem range_nonempty (z : List (Payload × Int)) (lo hi : Int) (e : Payload × Int)
    (he : e ∈ z) (hlo : lo ≤ e.2) (hhi : e.2 ≤ hi) : zsetRange z lo hi 1 ≠ [] := by
  intro h
  unfold zsetRange at h
  rw [List.take_eq_nil_iff] at h
  rcases h with h | h
  · omega
  · have : e ∈ List.insertionSort (fun a b : Payload × Int => a.2 ≤ b.2)
        (z.filter (fun e => decide (lo ≤ e.2) && decide (e.2 ≤ hi))) := by
      rw [List.mem_insertionSort]
      simp [List.mem_filter, he, hlo, hhi]
    rw [h] at this
    simp at this

/-- The three ways the query part of an iteration can end. -/
theorem DelayedConsumer.body_cases (rq : RedisQueue) (handler : Handler) (env : DelayedEnv)
    (s : Store) :
    (env.rangeFails = true ∧ DelayedConsumer.body rq handler env s = (s, .queryFailed)) ∨
    (env.rangeFails = false ∧
      (∀ e ∈ s.zsets (rq.queueName ++ ":delayed"), ¬ (0 ≤ e.2 ∧ e.2 ≤ env.now)) ∧
      DelayedConsumer.body rq handler env s = (s, .nothingDue)) ∨
    (env.rangeFails = false ∧ ∃ r, r ∈ s.zsets (rq.queueName ++ ":delayed") ∧
      0 ≤ r.2 ∧ r.2 ≤ env.now ∧
      (∀ e ∈ s.zsets (rq.queueName ++ ":delayed"), 0 ≤ e.2 → r.2 ≤ e.2) ∧
      DelayedConsumer.query rq env s = (.ok [r], s) ∧
      DelayedConsumer.body rq handler env s = DelayedConsumer.claim rq handler env r.1 s) := by
  cases hf : env.rangeFails with
  | true =>
    left
    simp [DelayedConsumer.body, DelayedConsumer.query, ZRangeByScoreWithScores, hf]
  | false =>
    right
    cases hres : zsetRange (s.zsets (rq.queueName ++ ":delayed")) 0 env.now 1 with
    | nil =>
      left
      refine ⟨rfl, ?_, ?_⟩
      · intro e he hrange
        exact range_nonempty _ 0 env.now e he hrange.1 hrange.2 hres
      · simp [DelayedConsumer.body, DelayedConsumer.query, ZRangeByScoreWithScores, hf, hres]
    | cons r rest =>
      right
      obtain ⟨rfl, h1, h2, h3, h4⟩ := range_head _ 0 env.now r rest hres
      refine ⟨rfl, r, h1, h2, h3, h4, ?_, ?_⟩
      · simp [DelayedConsumer.query, ZRangeByScoreWithScores, hf, hres]
      · simp [DelayedConsumer.body, DelayedConsumer.query, ZRangeByScoreWithScores, hf, hres]

/-- The ways the claim part of an iteration can end. -/
theorem DelayedConsumer.claim_cases (rq : RedisQueue) (handler : Handler) (env : DelayedEnv)
    (p : Payload) (s : Store) :
    (env.remFails = true ∧ DelayedConsumer.claim rq handler env p s = (s, .removeFailed p)) ∨
    (env.remFails = false ∧
      (DelayedConsumer.claim rq handler env p s).1 =
        s.setZSet (rq.queueName ++ ":delayed")
          (zsetRemove (s.zsets (rq.queueName ++ ":delayed")) p) ∧
      (((∀ e ∈ s.zsets (rq.queueName ++ ":delayed"), e.1 ≠ p) ∧
          (DelayedConsumer.claim rq handler env p s).2 = .alreadyClaimed p) ∨
        ((∃ e ∈ s.zsets (rq.queueName ++ ":delayed"), e.1 = p) ∧
          ((∃ x, Unmarshal p = .error x ∧
              (DelayedConsumer.claim rq handler env p s).2 = .undecodable p) ∨
            (∃ m, Unmarshal p = .ok m ∧
              (DelayedConsumer.claim rq handler env p s).2 = .handled p m (handler m)))))) := by
  cases hf : env.remFails with
  | true =>
    left
    simp [DelayedConsumer.claim, ZRem, hf]
  | false =>
    right
    refine ⟨rfl, ?_⟩
    by_cases hc : zsetCount (s.zsets (rq.queueName ++ ":delayed")) p = 0
    · have hall := (zsetCount_eq_zero _ _).1 hc
      refine ⟨?_, Or.inl ⟨hall, ?_⟩⟩ <;> simp [DelayedConsumer.claim, ZRem, hf, hc]
    · have hex : ∃ e ∈ s.zsets (rq.queueName ++ ":delayed"), e.1 = p := by
        by_contra hno
        apply hc
        rw [zsetCount_eq_zero]
        intro e he hep
        exact hno ⟨e, he, hep⟩
      cases hu : Unmarshal p with
      | error x =>
        refine ⟨?_, Or.inr ⟨hex, Or.inl ⟨x, rfl, ?_⟩⟩⟩ <;>
          simp [DelayedConsumer.claim, ZRem, hf, hc, hu]
      | ok m =>
        refine ⟨?_, Or.inr ⟨hex, Or.inr ⟨m, rfl, ?_⟩⟩⟩ <;>
          simp [DelayedConsumer.claim, ZRem, hf, hc, hu]

/-- In a sorted set (members distinct), removing a member removes exactly its
entry. -/
theorem zsetRemove_eq_erase (p : Payload) (sc : Int) : ∀ (z : List (Payload × Int)),
    (z.map Prod.fst).Nodup → (p, sc) ∈ z → zsetRemove z p = z.erase (p, sc)
  | [], _, h => by simp at h
  | x :: xs, hnd, h => by
    simp only [List.map_cons, List.nodup_cons] at hnd
    by_cases hx : x = (p, sc)
    · subst hx
      have hxs : ∀ e ∈ xs, e.1 ≠ p := by
        intro e he hep
        apply hnd.1
        simp only [List.mem_map]
        exact ⟨e, he, hep⟩
      have hfilter : xs.filter (fun e => !decide (e.1 = p)) = xs := by
        rw [List.filter_eq_self]
        intro e he
        simpa using hxs e he
      simp [zsetRemove, hfilter]
    · have hmem : (p, sc) ∈ xs := by
        rcases List.mem_cons.1 h with h1 | h1
        · exact absurd h1.symm hx
        · exact h1
      have hx1 : x.1 ≠ p := by
        intro hep
        apply hnd.1
        simp only [List.mem_map]
        exact ⟨(p, sc), hmem, hep.symm⟩
      have ih := zsetRemove_eq_erase p sc xs hnd.2 hmem
      unfold zsetRemove at ih ⊢
      rw [List.filter_cons_of_pos (by simpa using hx1), ih, List.erase_cons_tail]
      simpa using hx

/-- An iteration that hands a payload to the handler selected an entry of
that payload, due and of least score among the entries with score at least 0,
and removed the payload from the delayed set. -/
theorem DelayedConsumer.body_claimed (rq : RedisQueue) (handler : Handler) (env : DelayedEnv)
    (s : Store) (p : Payload)
    (h : (DelayedConsumer.body rq handler env s).2 = .undecodable p ∨
      ∃ m r, (DelayedConsumer.body rq handler env s).2 = .handled p m r) :
    (∃ sc, (p, sc) ∈ s.zsets (rq.queueName ++ ":delayed") ∧ 0 ≤ sc ∧ sc ≤ env.now ∧
      ∀ e ∈ s.zsets (rq.queueName ++ ":delayed"), 0 ≤ e.2 → sc ≤ e.2) ∧
    (DelayedConsumer.body rq handler env s).1 =
      s.setZSet (rq.queueName ++ ":delayed")
        (zsetRemove (s.zsets (rq.queueName ++ ":delayed")) p) ∧
    (∀ m r, (DelayedConsumer.body rq handler env s).2 = .handled p m r →
      Unmarshal p = .ok m ∧ r = handler m) := by
  rcases DelayedConsumer.body_cases rq handler env s with ⟨_, hb⟩ | ⟨_, _, hb⟩ |
      ⟨_, r, hr1, hr2, hr3, hr4, _, hb⟩
  · rw [hb] at h
    rcases h with h | ⟨m, r, h⟩ <;> cases h
  · rw [hb] at h
    rcases h with h | ⟨m, r, h⟩ <;> cases h
  · rw [hb] at h ⊢
    rcases DelayedConsumer.claim_cases rq handler env r.1 s with ⟨_, hc⟩ |
        ⟨_, hs1, ⟨_, hc⟩ | ⟨_, ⟨x, _, hc⟩ | ⟨m0, hu, hc⟩⟩⟩
    · rw [hc] at h
      rcases h with h | ⟨m, r, h⟩ <;> cases h
    · rw [hc] at h
      rcases h with h | ⟨m, r, h⟩ <;> cases h
    · rw [hc] at h ⊢
      have hp : r.1 = p := by
        rcases h with h | ⟨m, r, h⟩
        · exact DelayedOutcome.undecodable.inj h
        · cases h
      subst hp
      refine ⟨⟨r.2, hr1, hr2, hr3, hr4⟩, hs1, ?_⟩
      intro m r1 hm
      cases hm
    · rw [hc] at h ⊢
      have hp : r.1 = p := by
        rcases h with h | ⟨m, r, h⟩
        · cases h
        · exact (DelayedOutcome.handled.inj h).1
      subst hp
      refine ⟨⟨r.2, hr1, hr2, hr3, hr4⟩, hs1, ?_⟩
      intro m r1 hm
      obtain ⟨_, h2, h3⟩ := DelayedOutcome.handled.inj hm
      subst h2
      exact ⟨hu, h3.symm⟩

/-- An iteration never adds an entry to the delayed set and leaves the lists
and the other sorted sets as they were. -/
theorem DelayedConsumer.body_frame (rq : RedisQueue) (handler : Handler) (env : DelayedEnv)
    (s : Store) :
    (DelayedConsumer.body rq handler env s).1.lists = s.lists ∧
    (∀ k, k ≠ rq.queueName ++ ":delayed" →
      (DelayedConsumer.body rq handler env s).1.zsets k = s.zsets k) ∧
    (∀ e ∈ (DelayedConsumer.body rq handler env s).1.zsets (rq.queueName ++ ":delayed"),
      e ∈ s.zsets (rq.queueName ++ ":delayed")) := by
  rcases DelayedConsumer.body_cases rq handler env s with ⟨_, hb⟩ | ⟨_, _, hb⟩ |
      ⟨_, r, _, _, _, _, _, hb⟩
  · rw [hb]
    exact ⟨rfl, fun _ _ => rfl, fun _ h => h⟩
  · rw [hb]
    exact ⟨rfl, fun _ _ => rfl, fun _ h => h⟩
  · rw [hb]
    rcases DelayedConsumer.claim_cases rq handler env r.1 s with ⟨_, hc⟩ | ⟨_, hs1, _⟩
    · rw [hc]
      exact ⟨rfl, fun _ _ => rfl, fun _ h => h⟩
    · rw [hs1]
      refine ⟨rfl, ?_, ?_⟩
      · intro k hk
        exact Store.setZSet_zsets_other s _ k _ hk
      · intro e he
        rw [Store.setZSet_zsets_same] at he
        exact ((mem_zsetRemove _ _ _).1 he).1

/-- C7. A `DelayedConsumer` iteration that claims a due entry (payload `p`,
decoded to `m`) and whose handler fails on `m`, on a store whose delayed set
has distinct members: every list, the immediate queue and the dead-letter list
among them, is unchanged; the delayed set is its previous content minus
exactly the claimed entry; no entry of `p` remains in it; the other sorted
sets are unchanged. Nothing depends on `m.Retry`. -/
theorem delayed_failure_is_drop (rq : RedisQueue) (handler : Handler) (env : DelayedEnv)
    (s : Store) (p : Payload) (m : Message) (e : String)
    (hnd : ((s.zsets (rq.queueName ++ ":delayed")).map Prod.fst).Nodup)
    (hout : (DelayedConsumer.body rq handler env s).2 = .handled p m (.error e)) :
    Unmarshal p = .ok m ∧ handler m = .error e ∧
    (DelayedConsumer.body rq handler env s).1.lists = s.lists ∧
    (DelayedConsumer.body rq handler env s).1.lists rq.queueName = s.lists rq.queueName ∧
    (DelayedConsumer.body rq handler env s).1.lists (rq.queueName ++ ":dead") =
      s.lists (rq.queueName ++ ":dead") ∧
    (∃ sc, (p, sc) ∈ s.zsets (rq.queueName ++ ":delayed") ∧
      (DelayedConsumer.body rq handler env s).1.zsets (rq.queueName ++ ":delayed") =
        (s.zsets (rq.queueName ++ ":delayed")).erase (p, sc)) ∧
    (∀ x ∈ (DelayedConsumer.body rq handler env s).1.zsets (rq.queueName ++ ":delayed"),
      x.1 ≠ p) ∧
    (∀ k, k ≠ rq.queueName ++ ":delayed" →
      (DelayedConsumer.body rq handler env s).1.zsets k = s.zsets k) := by
  obtain ⟨⟨sc, hmem, _, _, _⟩, hs1, hh⟩ :=
    DelayedConsumer.body_claimed rq handler env s p (Or.inr ⟨m, _, hout⟩)
  obtain ⟨hu, he⟩ := hh m _ hout
  have hf := DelayedConsumer.body_frame rq handler env s
  refine ⟨hu, he.symm, hf.1, by rw [hf.1], by rw [hf.1], ⟨sc, hmem, ?_⟩, ?_, hf.2.1⟩
  · rw [hs1, Store.setZSet_zsets_same]
    exact zsetRemove_eq_erase p sc _ hnd hmem
  · intro x hx
    rw [hs1, Store.setZSet_zsets_same] at hx
    exact ((mem_zsetRemove _ _ _).1 hx).2

/-- C10, counterexample. With the entry of `msg_1` at score -5 and the entry of
`msg_3` at score 1700000003, an iteration at time 1700000010 claims `msg_3`
although the entry of `msg_1` has a smaller score and stays in the set; and
with the entry of `msg_1` alone, whose score is below the clock reading, the
iteration finds nothing and sleeps. -/
theorem earliest_due_counterexample :
    pastAndDueStore.zsets "task_queue:delayed" =
      [(wire "msg_1" false 0, -5), (wire "msg_3" false 0, 1700000003)] ∧
    (DelayedConsumer.body taskQueue neverFails (calmAt 1700000010) pastAndDueStore).2 =
      .handled (wire "msg_3" false 0) msg3 (.ok ()) ∧
    (DelayedConsumer.body taskQueue neverFails (calmAt 1700000010) pastAndDueStore).1.zsets
      "task_queue:delayed" = [(wire "msg_1" false 0, -5)] ∧
    pastStore.zsets "task_queue:delayed" = [(wire "msg_1" false 0, -5)] ∧
    (DelayedConsumer.body taskQueue neverFails (calmAt 1700000010) pastStore).2 =
      .nothingDue := by
  decide!

/-- C10, amended. If a `DelayedConsumer` iteration claims an entry, that entry
is due and its score is minimal among the entries whose score is at least 0
(the lower bound of the range query; entries of negative score are never
selected); and if at least one entry has its score in `[0, now]` and the range
query does not fail, the iteration selects a candidate and goes on to the
claim step instead of sleeping. -/
theorem earliest_due_first (rq : RedisQueue) (handler : Handler) (env : DelayedEnv)
    (s : Store) :
    (∀ p, ((DelayedConsumer.body rq handler env s).2 = .undecodable p ∨
        ∃ m r, (DelayedConsumer.body rq handler env s).2 = .handled p m r) →
      ∃ sc, (p, sc) ∈ s.zsets (rq.queueName ++ ":delayed") ∧ 0 ≤ sc ∧ sc ≤ env.now ∧
        ∀ e ∈ s.zsets (rq.queueName ++ ":delayed"), 0 ≤ e.2 → sc ≤ e.2) ∧
    (env.rangeFails = false →
      (∃ e ∈ s.zsets (rq.queueName ++ ":delayed"), 0 ≤ e.2 ∧ e.2 ≤ env.now) →
      ∃ r, r ∈ s.zsets (rq.queueName ++ ":delayed") ∧
        DelayedConsumer.query rq env s = (.ok [r], s) ∧
        DelayedConsumer.body rq handler env s = DelayedConsumer.claim rq handler env r.1 s ∧
        (DelayedConsumer.body rq handler env s).2 ≠ .nothingDue ∧
        (DelayedConsumer.body rq handler env s).2 ≠ .queryFailed) := by
  refine ⟨fun p h => (DelayedConsumer.body_claimed rq handler env s p h).1, ?_⟩
  intro hf ⟨e, he, hlo, hhi⟩
  rcases DelayedConsumer.body_cases rq handler env s with ⟨hf1, _⟩ | ⟨_, hnone, _⟩ |
      ⟨_, r, hr1, _, _, _, hq, hb⟩
  · rw [hf] at hf1
    cases hf1
  · exact absurd ⟨hlo, hhi⟩ (hnone e he)
  · refine ⟨r, hr1, hq, hb, ?_, ?_⟩
    · rw [hb]
      rcases DelayedConsumer.claim_cases rq handler env r.1 s with ⟨_, hc⟩ |
          ⟨_, _, ⟨_, hc⟩ | ⟨_, ⟨x, _, hc⟩ | ⟨m0, _, hc⟩⟩⟩ <;> rw [hc] <;> simp
    · rw [hb]
      rcases DelayedConsumer.claim_cases rq handler env r.1 s with ⟨_, hc⟩ |
          ⟨_, _, ⟨_, hc⟩ | ⟨_, ⟨x, _, hc⟩ | ⟨m0, _, hc⟩⟩⟩ <;> rw [hc] <;> simp

/-! ## Due time -/

theorem DelayedConsumer.query_cases (rq : RedisQueue) (env : DelayedEnv) (s : Store) :
    (∃ x, DelayedConsumer.query rq env s = (.error x, s)) ∨
    DelayedConsumer.query rq env s = (.ok [], s) ∨
    (∃ r, r ∈ s.zsets (rq.queueName ++ ":delayed") ∧
      DelayedConsumer.query rq env s = (.ok [r], s)) := by
  cases hf : env.rangeFails with
  | true =>
    left
    exact ⟨"redis: command failed", by simp [DelayedConsumer.query, ZRangeByScoreWithScores, hf]⟩
  | false =>
    right
    cases hres : zsetRange (s.zsets (rq.queueName ++ ":delayed")) 0 env.now 1 with
    | nil =>
      left
      simp [DelayedConsumer.query, ZRangeByScoreWithScores, hf, hres]
    | cons r rest =>
      right
      obtain ⟨rfl, h1, _⟩ := range_head _ 0 env.now r rest hres
      exact ⟨r, h1, by simp [DelayedConsumer.query, ZRangeByScoreWithScores, hf, hres]⟩

theorem zsetRemove_nodup (z : List (Payload × Int)) (p : Payload)
    (h : (z.map Prod.fst).Nodup) : ((zsetRemove z p).map Prod.fst).Nodup := by
  unfold zsetRemove
  exact h.sublist ((List.filter_sublist z).map Prod.fst)

theorem claimOutcome_counted (p : Payload) (handler : Handler) (c : DelayedOutcome)
    (h : claimOutcome p handler c) : c.counted p = true ∧ c.claimed p = true := by
  rcases h with ⟨x, _, rfl⟩ | ⟨m, _, rfl⟩ <;>
    simp [DelayedOutcome.counted, DelayedOutcome.claimed]

/-- A polling step keeps the situation of `p`. -/
theorem claimInv_poll (rq : RedisQueue) (handler : Handler) (p : Payload) (i : Nat)
    (env : DelayedEnv) (sys : System) (hl : sys.loops i = .polling)
    (h : claimInv rq handler p sys) :
    claimInv rq handler p (DelayedConsumer.step rq handler i env sys) := by
  unfold DelayedConsumer.step
  rw [hl]
  rcases DelayedConsumer.query_cases rq env sys.store with ⟨x, hq⟩ | hq | ⟨r, hr, hq⟩
  · simp only [hq]
    exact h
  · simp only [hq]
    exact h
  · simp only [hq]
    obtain ⟨hnd, hcases⟩ := h
    refine ⟨hnd, ?_⟩
    rcases hcases with hA | ⟨hB1, hB2, hB3⟩ | hC
    · exact Or.inl hA
    · refine Or.inr (Or.inl ⟨hB1, hB2, ?_⟩)
      intro j
      by_cases hj : j = i
      · simp only [hj, if_true]
        intro hsel
        exact hB1 r hr (LoopState.selected.inj hsel)
      · simp only [hj, if_false]
        exact hB3 j
    · exact Or.inr (Or.inr hC)

theorem filter_trace_neg (p : Payload) (tr : List (Nat × DelayedOutcome)) (i : Nat)
    (o : DelayedOutcome) (h : o.counted p = false) :
    (tr ++ [(i, o)]).filter (fun x => x.2.counted p) = tr.filter (fun x => x.2.counted p) := by
  rw [List.filter_append, List.filter_cons_of_neg (by simpa using h)]
  simp

theorem filter_trace_pos (p : Payload) (tr : List (Nat × DelayedOutcome)) (i : Nat)
    (o : DelayedOutcome) (h : o.counted p = true) :
    (tr ++ [(i, o)]).filter (fun x => x.2.counted p) =
      tr.filter (fun x => x.2.counted p) ++ [(i, o)] := by
  rw [List.filter_append, List.filter_cons_of_pos (by simpa using h)]
  simp

/-- A claim step keeps the situation of `p`. -/
theorem claimInv_claim (rq : RedisQueue) (handler : Handler) (p q : Payload) (i : Nat)
    (env : DelayedEnv) (sys : System) (hl : sys.loops i = .selected q)
    (h : claimInv rq handler p sys) :
    claimInv rq handler p (DelayedConsumer.step rq handler i env sys) := by
  have hstep : DelayedConsumer.step rq handler i env sys =
      { store := (DelayedConsumer.claim rq handler env q sys.store).1
        loops := fun j => if j = i then .polling else sys.loops j
        trace := sys.trace ++ [(i, (DelayedConsumer.claim rq handler env q sys.store).2)] } := by
    simp only [DelayedConsumer.step, hl]
  rw [hstep]
  obtain ⟨hnd, hcases⟩ := h
  have hloops : (∀ j, sys.loops j ≠ .selected p) →
      ∀ j, (if j = i then LoopState.polling else sys.loops j) ≠ .selected p := by
    intro hB3 j
    by_cases hj : j = i
    · simp [hj]
    · simp only [hj, if_false]
      exact hB3 j
  unfold claimInv
  dsimp only
  rcases DelayedConsumer.claim_cases rq handler env q sys.store with ⟨_, hc⟩ |
      ⟨_, hs1, hout⟩
  · -- the remove failed: nothing changes but the position of loop `i`
    rw [hc]
    dsimp only
    rw [filter_trace_neg p _ i _ (by simp [DelayedOutcome.counted])]
    refine ⟨hnd, ?_⟩
    rcases hcases with hA | ⟨hB1, hB2, hB3⟩ | hC
    · exact Or.inl hA
    · exact Or.inr (Or.inl ⟨hB1, hB2, hloops hB3⟩)
    · exact Or.inr (Or.inr hC)
  · rw [hs1, Store.setZSet_zsets_same]
    refine ⟨zsetRemove_nodup _ _ hnd, ?_⟩
    by_cases hqp : q = p
    · subst hqp
      have habsent : ∀ e ∈ zsetRemove (sys.store.zsets (rq.queueName ++ ":delayed")) q,
          e.1 ≠ q := fun e he => ((mem_zsetRemove _ _ _).1 he).2
      rcases hcases with ⟨hA1, hA2⟩ | ⟨hB1, hB2, hB3⟩ | ⟨hC1, i0, c, rest, hC2, hC3, hC4⟩
      · -- first count for `q`: non-zero
        have hclaim : claimOutcome q handler
            (DelayedConsumer.claim rq handler env q sys.store).2 := by
          rcases hout with ⟨hno, _⟩ | ⟨_, hyes⟩
          · obtain ⟨e, he, heq⟩ := hA1
            exact absurd heq (hno e he)
          · exact hyes
        have hcount := (claimOutcome_counted q handler _ hclaim).1
        rw [filter_trace_pos q _ i _ hcount, hA2]
        exact Or.inr (Or.inr ⟨habsent, i, _, [], rfl, hclaim, by simp⟩)
      · exact absurd hl (hB3 i)
      · -- a later count for `q`: zero
        have hzero : (DelayedConsumer.claim rq handler env q sys.store).2 =
            .alreadyClaimed q := by
          rcases hout with ⟨_, hz⟩ | ⟨⟨e, he, heq⟩, _⟩
          · exact hz
          · exact absurd heq (hC1 e he)
        rw [hzero, filter_trace_pos q _ i _ (by simp [DelayedOutcome.counted]), hC2]
        refine Or.inr (Or.inr ⟨habsent, i0, c, rest ++ [(i, .alreadyClaimed q)],
          List.cons_append _ _ _, hC3, ?_⟩)
        intro x hx
        rcases List.mem_append.1 hx with hx | hx
        · exact hC4 x hx
        · rw [List.mem_singleton.1 hx]
    · -- a claim step for another payload
      have hnot : (DelayedConsumer.claim rq handler env q sys.store).2.counted p = false := by
        rcases hout with ⟨_, hz⟩ | ⟨_, ⟨x, _, hz⟩ | ⟨m, _, hz⟩⟩ <;>
          simp [hz, DelayedOutcome.counted, hqp]
      have hmem : ∀ e, e.1 = p →
          (e ∈ zsetRemove (sys.store.zsets (rq.queueName ++ ":delayed")) q ↔
            e ∈ sys.store.zsets (rq.queueName ++ ":delayed")) := by
        intro e hep
        rw [mem_zsetRemove]
        constructor
        · exact fun h => h.1
        · exact fun h => ⟨h, fun heq => hqp (heq.symm.trans hep)⟩
      rw [filter_trace_neg p _ i _ hnot]
      rcases hcases with ⟨⟨e, he, hep⟩, hA2⟩ | ⟨hB1, hB2, hB3⟩ | ⟨hC1, hC⟩
      · exact Or.inl ⟨⟨e, (hmem e hep).2 he, hep⟩, hA2⟩
      · exact Or.inr (Or.inl ⟨fun e he => hB1 e ((mem_zsetRemove _ _ _).1 he).1, hB2,
          hloops hB3⟩)
      · exact Or.inr (Or.inr ⟨fun e he => hC1 e ((mem_zsetRemove _ _ _).1 he).1, hC⟩)

theorem claimInv_step (rq : RedisQueue) (handler : Handler) (p : Payload) (i : Nat)
    (env : DelayedEnv) (sys : System) (h : claimInv rq handler p sys) :
    claimInv rq handler p (DelayedConsumer.step rq handler i env sys) := by
  cases hl : sys.loops i with
  | polling => exact claimInv_poll rq handler p i env sys hl h
  | selected q => exact claimInv_claim rq handler p q i env sys hl h

theorem claimInv_interleave (rq : RedisQueue) (handler : Handler) (p : Payload) :
    ∀ (sched : List (Nat × DelayedEnv)) (sys : System), claimInv rq handler p sys →
      claimInv rq handler p (DelayedConsumer.interleave rq handler sched sys)
  | [], _, h => h
  | (i, env) :: rest, sys, h =>
    claimInv_interleave rq handler p rest _ (claimInv_step rq handler p i env sys h)

theorem claimed_filter (p : Payload) (tr : List (Nat × DelayedOutcome)) :
    tr.filter (fun x => x.2.claimed p) =
      (tr.filter (fun x => x.2.counted p)).filter (fun x => x.2.claimed p) := by
  rw [List.filter_filter]
  congr 1
  funext x
  cases x.2 <;> simp [DelayedOutcome.claimed, DelayedOutcome.counted]

/-- The step of a polling loop when an entry is due and the query succeeds. -/
theorem step_selects (rq : RedisQueue) (handler : Handler) (i : Nat) (env : DelayedEnv)
    (sys : System) (hl : sys.loops i = .polling) (hf : env.rangeFails = false)
    (hdue : ∃ e ∈ sys.store.zsets (rq.queueName ++ ":delayed"), 0 ≤ e.2 ∧ e.2 ≤ env.now) :
    ∃ r ∈ sys.store.zsets (rq.queueName ++ ":delayed"), 0 ≤ r.2 ∧ r.2 ≤ env.now ∧
      (∀ e ∈ sys.store.zsets (rq.queueName ++ ":delayed"), 0 ≤ e.2 → r.2 ≤ e.2) ∧
      (DelayedConsumer.step rq handler i env sys).loops i = .selected r.1 ∧
      (DelayedConsumer.step rq handler i env sys).store = sys.store ∧
      (DelayedConsumer.step rq handler i env sys).trace = sys.trace := by
  obtain ⟨e, he, hlo, hhi⟩ := hdue
  rcases DelayedConsumer.body_cases rq handler env sys.store with ⟨hf1, _⟩ | ⟨_, hnone, _⟩ |
      ⟨_, r, hr1, hr2, hr3, hr4, hq, _⟩
  · rw [hf] at hf1
    cases hf1
  · exact absurd ⟨hlo, hhi⟩ (hnone e he)
  · refine ⟨r, hr1, hr2, hr3, hr4, ?_, ?_, ?_⟩ <;>
      simp [DelayedConsumer.step, hl, hq]

/-- The step of a loop that holds the candidate `p` and whose `ZREM` does not
fail, in a state where the situation of `p` is as `claimInv` says. -/
theorem step_claims (rq : RedisQueue) (handler : Handler) (p : Payload) (i : Nat)
    (env : DelayedEnv) (sys : System) (hinv : claimInv rq handler p sys)
    (hl : sys.loops i = .selected p) (hf : env.remFails = false) :
    ∃ c, (DelayedConsumer.step rq handler i env sys).trace = sys.trace ++ [(i, c)] ∧
      (DelayedConsumer.step rq handler i env sys).loops i = .polling ∧
      (∀ e ∈ (DelayedConsumer.step rq handler i env sys).store.zsets
        (rq.queueName ++ ":delayed"), e.1 ≠ p) ∧
      (((∃ e ∈ sys.store.zsets (rq.queueName ++ ":delayed"), e.1 = p) ∧
          sys.trace.filter (fun x => x.2.counted p) = [] ∧ claimOutcome p handler c) ∨
        ((∀ e ∈ sys.store.zsets (rq.queueName ++ ":delayed"), e.1 ≠ p) ∧
          c = .alreadyClaimed p ∧
          ∃ j c0 rest, sys.trace.filter (fun x => x.2.counted p) = (j, c0) :: rest ∧
            claimOutcome p handler c0)) := by
  have hstep : DelayedConsumer.step rq handler i env sys =
      { store := (DelayedConsumer.claim rq handler env p sys.store).1
        loops := fun j => if j = i then .polling else sys.loops j
        trace := sys.trace ++ [(i, (DelayedConsumer.claim rq handler env p sys.store).2)] } := by
    simp only [DelayedConsumer.step, hl]
  rw [hstep]
  dsimp only
  rcases DelayedConsumer.claim_cases rq handler env p sys.store with ⟨hf1, _⟩ | ⟨_, hs1, hout⟩
  · rw [hf] at hf1
    cases hf1
  · refine ⟨_, rfl, by simp, ?_, ?_⟩
    · intro e he
      rw [hs1, Store.setZSet_zsets_same] at he
      exact ((mem_zsetRemove _ _ _).1 he).2
    · rcases hinv.2 with ⟨hA1, hA2⟩ | ⟨_, _, hB3⟩ | ⟨hC1, j, c0, rest, hC2, hC3, _⟩
      · left
        refine ⟨hA1, hA2, ?_⟩
        rcases hout with ⟨hno, _⟩ | ⟨_, hyes⟩
        · obtain ⟨e, he, heq⟩ := hA1
          exact absurd heq (hno e he)
        · exact hyes
      · exact absurd hl (hB3 i)
      · right
        refine ⟨hC1, ?_, j, c0, rest, hC2, hC3⟩
        rcases hout with ⟨_, hz⟩ | ⟨⟨e, he, heq⟩, _⟩
        · exact hz
        · exact absurd heq (hC1 e he)

/-- C3. Any number of `DelayedConsumer` loops on one store whose delayed set
has distinct members, all starting at the top of the loop, their store calls
interleaved in any order, with any clock readings and store failures; `sys` is
the state any such interleaving reaches. (1) For a payload `p`, take the `ZREM`
calls of `p` that reported a count, in the order they happened: if there is
any, the first reported a non-zero count (and its loop called the handler on
the decoded message, or found the payload undecodable), and every later one
reported zero, its loop calling no handler. (2) So never more than one claim
step has a non-zero count for `p`, and (3) exactly one has as soon as one
`ZREM` of `p` went through. (4) A polling loop whose query does not fail while
an entry is due selects a due entry of least score, changing nothing. (5) A
loop that holds `p` as its candidate and whose `ZREM` does not fail records one
outcome and returns to polling, and no entry of `p` is left: if the entry of
`p` was still there, no earlier `ZREM` of `p` had reported a count, and this
one reports a non-zero count and the loop calls the handler on the decoded
message (or finds the payload undecodable); if the entry was gone, another
claim had the non-zero count, and this loop observes a count of zero and calls
no handler. -/
theorem no_double_claim (rq : RedisQueue) (handler : Handler) (s : Store)
    (sched : List (Nat × DelayedEnv)) (p : Payload)
    (hnd : ((s.zsets (rq.queueName ++ ":delayed")).map Prod.fst).Nodup) :
    ((DelayedConsumer.interleave rq handler sched (System.start s)).trace.filter
        (fun x => x.2.counted p) = [] ∨
      ∃ i c rest,
        (DelayedConsumer.interleave rq handler sched (System.start s)).trace.filter
          (fun x => x.2.counted p) = (i, c) :: rest ∧
        ((∃ x, Unmarshal p = .error x ∧ c = .undecodable p) ∨
          (∃ m, Unmarshal p = .ok m ∧ c = .handled p m (handler m))) ∧
        ∀ x ∈ rest, x.2 = .alreadyClaimed p) ∧
    ((DelayedConsumer.interleave rq handler sched (System.start s)).trace.filter
      (fun x => x.2.claimed p)).length ≤ 1 ∧
    ((∃ x ∈ (DelayedConsumer.interleave rq handler sched (System.start s)).trace,
        x.2.counted p = true) →
      ((DelayedConsumer.interleave rq handler sched (System.start s)).trace.filter
        (fun x => x.2.claimed p)).length = 1) ∧
    (∀ (i : Nat) (env : DelayedEnv),
      (DelayedConsumer.interleave rq handler sched (System.start s)).loops i = .polling →
      env.rangeFails = false →
      (∃ e ∈ (DelayedConsumer.interleave rq handler sched (System.start s)).store.zsets
        (rq.queueName ++ ":delayed"), 0 ≤ e.2 ∧ e.2 ≤ env.now) →
      ∃ r ∈ (DelayedConsumer.interleave rq handler sched (System.start s)).store.zsets
          (rq.queueName ++ ":delayed"),
        0 ≤ r.2 ∧ r.2 ≤ env.now ∧
        (∀ e ∈ (DelayedConsumer.interleave rq handler sched (System.start s)).store.zsets
          (rq.queueName ++ ":delayed"), 0 ≤ e.2 → r.2 ≤ e.2) ∧
        (DelayedConsumer.step rq handler i env
          (DelayedConsumer.interleave rq handler sched (System.start s))).loops i =
            .selected r.1 ∧
        (DelayedConsumer.step rq handler i env
          (DelayedConsumer.interleave rq handler sched (System.start s))).store =
            (DelayedConsumer.interleave rq handler sched (System.start s)).store ∧
        (DelayedConsumer.step rq handler i env
          (DelayedConsumer.interleave rq handler sched (System.start s))).trace =
            (DelayedConsumer.interleave rq handler sched (System.start s)).trace) ∧
    (∀ (i : Nat) (env : DelayedEnv),
      (DelayedConsumer.interleave rq handler sched (System.start s)).loops i = .selected p →
      env.remFails = false →
      ∃ c,
        (DelayedConsumer.step rq handler i env
          (DelayedConsumer.interleave rq handler sched (System.start s))).trace =
            (DelayedConsumer.interleave rq handler sched (System.start s)).trace ++ [(i, c)] ∧
        (DelayedConsumer.step rq handler i env
          (DelayedConsumer.interleave rq handler sched (System.start s))).loops i = .polling ∧
        (∀ e ∈ (DelayedConsumer.step rq handler i env
            (DelayedConsumer.interleave rq handler sched (System.start s))).store.zsets
            (rq.queueName ++ ":delayed"), e.1 ≠ p) ∧
        (((∃ e ∈ (DelayedConsumer.interleave rq handler sched (System.start s)).store.zsets
              (rq.queueName ++ ":delayed"), e.1 = p) ∧
            (DelayedConsumer.interleave rq handler sched (System.start s)).trace.filter
              (fun x => x.2.counted p) = [] ∧
            ((∃ x, Unmarshal p = .error x ∧ c = .undecodable p) ∨
              (∃ m, Unmarshal p = .ok m ∧ c = .handled p m (handler m)))) ∨
          ((∀ e ∈ (DelayedConsumer.interleave rq handler sched (System.start s)).store.zsets
              (rq.queueName ++ ":delayed"), e.1 ≠ p) ∧
            c = .alreadyClaimed p ∧
            ∃ j c0 rest,
              (DelayedConsumer.interleave rq handler sched (System.start s)).trace.filter
                (fun x => x.2.counted p) = (j, c0) :: rest ∧
              ((∃ x, Unmarshal p = .error x ∧ c0 = .undecodable p) ∨
                (∃ m, Unmarshal p = .ok m ∧ c0 = .handled p m (handler m)))))) := by
  have hstart : claimInv rq handler p (System.start s) := by
    refine ⟨hnd, ?_⟩
    by_cases hex : ∃ e ∈ s.zsets (rq.queueName ++ ":delayed"), e.1 = p
    · exact Or.inl ⟨hex, rfl⟩
    · refine Or.inr (Or.inl ⟨fun e he hep => hex ⟨e, he, hep⟩, rfl, ?_⟩)
      intro i h
      cases h
  have hinv := claimInv_interleave rq handler p sched _ hstart
  obtain ⟨_, hfinal⟩ := hinv
  have hshape : (DelayedConsumer.interleave rq handler sched (System.start s)).trace.filter
        (fun x => x.2.counted p) = [] ∨
      ∃ i c rest,
        (DelayedConsumer.interleave rq handler sched (System.start s)).trace.filter
          (fun x => x.2.counted p) = (i, c) :: rest ∧
        claimOutcome p handler c ∧ ∀ x ∈ rest, x.2 = .alreadyClaimed p := by
    rcases hfinal with ⟨_, h⟩ | ⟨_, h, _⟩ | ⟨_, h⟩
    · exact Or.inl h
    · exact Or.inl h
    · exact Or.inr h
  refine ⟨hshape, ?_, ?_, ?_, ?_⟩
  · rw [claimed_filter]
    rcases hshape with h | ⟨i, c, rest, h, hc, hrest⟩
    · simp [h]
    · rw [h, List.filter_cons_of_pos (by simpa using (claimOutcome_counted p handler c hc).2)]
      have : rest.filter (fun x => x.2.claimed p) = [] := by
        rw [List.filter_eq_nil_iff]
        intro x hx
        simp [hrest x hx, DelayedOutcome.claimed]
      simp [this]
  · intro ⟨x, hx, hcount⟩
    rw [claimed_filter]
    rcases hshape with h | ⟨i, c, rest, h, hc, hrest⟩
    · have : x ∈ (DelayedConsumer.interleave rq handler sched (System.start s)).trace.filter
          (fun x => x.2.counted p) := by
        simp [List.mem_filter, hx, hcount]
      rw [h] at this
      simp at this
    · rw [h, List.filter_cons_of_pos (by simpa using (claimOutcome_counted p handler c hc).2)]
      have : rest.filter (fun x => x.2.claimed p) = [] := by
        rw [List.filter_eq_nil_iff]
        intro x hx
        simp [hrest x hx, DelayedOutcome.claimed]
      simp [this]
  · intro i env hl hf hdue
    exact step_selects rq handler i env _ hl hf hdue
  · intro i env hl hf
    exact step_claims rq handler p i env _
      (claimInv_interleave rq handler p sched _ hstart) hl hf

/-! ## Round trip -/

/-- C3, instance: two loops that both select the entry of `msg_3` before
either removes it. Loop 0 removes it first and calls the handler; loop 1 then
observes a count of zero. -/
theorem no_double_claim_witness :
    ((pastAndDueStore.zsets (taskQueue.queueName ++ ":delayed")).map Prod.fst).Nodup ∧
    (DelayedConsumer.interleave taskQueue neverFails twoLoops
        (System.start pastAndDueStore)).trace =
      [(0, .handled (wire "msg_3" false 0) msg3 (.ok ())),
        (1, .alreadyClaimed (wire "msg_3" false 0))] ∧
    ((DelayedConsumer.interleave taskQueue neverFails twoLoops
        (System.start pastAndDueStore)).trace.filter
      (fun x => x.2.claimed (wire "msg_3" false 0))).length = 1 :=
  ⟨by decide!, by decide!,
    (no_double_claim taskQueue neverFails pastAndDueStore twoLoops
      (wire "msg_3" false 0) (by decide!)).2.2.1 ⟨(1, .alreadyClaimed (wire "msg_3" false 0)),
        by decide!, by decide!⟩⟩

/-- C6, instance: the first failed delivery of `msg_2`. -/
theorem retry_resubmission_step_witness :
    ((Producer taskQueue false msg2 Store.empty).2.lists taskQueue.queueName =
        [] ++ [wire "msg_2" true 0] ∧
      calm.popFails = false ∧ calm.pushFails = false ∧
      Unmarshal (wire "msg_2" true 0) = .ok msg2 ∧
      alwaysFails msg2 = .error "模拟处理失败" ∧
      msg2.Retry < 3) ∧
    ((NewConfig (fun _ => "")).MaxRetry = 3 ∧
    ∃ p1 s1, Marshal { msg2 with Retry := msg2.Retry + 1 } = .ok p1 ∧
      Unmarshal p1 = .ok { msg2 with Retry := msg2.Retry + 1 } ∧
      Consumer.body taskQueue alwaysFails calm (Producer taskQueue false msg2 Store.empty).2 =
        some (s1, .retried { msg2 with Retry := msg2.Retry + 1 } true) ∧
      s1.lists taskQueue.queueName = p1 :: [] ∧
      s1.lists (taskQueue.queueName ++ ":dead") =
        (Producer taskQueue false msg2 Store.empty).2.lists (taskQueue.queueName ++ ":dead") ∧
      (∀ k, k ≠ taskQueue.queueName →
        s1.lists k = (Producer taskQueue false msg2 Store.empty).2.lists k) ∧
      s1.zsets = (Producer taskQueue false msg2 Store.empty).2.zsets) :=
  ⟨⟨by decide, rfl, rfl, by decide, rfl, by decide⟩,
    retry_resubmission_step taskQueue alwaysFails calm (fun _ => "")
      (Producer taskQueue false msg2 Store.empty).2 [] (wire "msg_2" true 0) msg2
      "模拟处理失败" (by decide) rfl rfl (by decide) rfl (by decide)⟩

/-- C7, instance: the due entry of `msg_3` claimed by a loop whose handler
fails. -/
theorem delayed_failure_is_drop_witness :
    (((pastAndDueStore.zsets (taskQueue.queueName ++ ":delayed")).map Prod.fst).Nodup ∧
      (DelayedConsumer.body taskQueue alwaysFails (calmAt 1700000010) pastAndDueStore).2 =
        .handled (wire "msg_3" false 0) msg3 (.error "模拟处理失败")) ∧
    (Unmarshal (wire "msg_3" false 0) = .ok msg3 ∧
    alwaysFails msg3 = .error "模拟处理失败" ∧
    (DelayedConsumer.body taskQueue alwaysFails (calmAt 1700000010) pastAndDueStore).1.lists =
      pastAndDueStore.lists ∧
    (DelayedConsumer.body taskQueue alwaysFails (calmAt 1700000010) pastAndDueStore).1.lists
      taskQueue.queueName = pastAndDueStore.lists taskQueue.queueName ∧
    (DelayedConsumer.body taskQueue alwaysFails (calmAt 1700000010) pastAndDueStore).1.lists
      (taskQueue.queueName ++ ":dead") = pastAndDueStore.lists (taskQueue.queueName ++ ":dead") ∧
    (∃ sc, (wire "msg_3" false 0, sc) ∈
        pastAndDueStore.zsets (taskQueue.queueName ++ ":delayed") ∧
      (DelayedConsumer.body taskQueue alwaysFails (calmAt 1700000010) pastAndDueStore).1.zsets
        (taskQueue.queueName ++ ":delayed") =
        (pastAndDueStore.zsets (taskQueue.queueName ++ ":delayed")).erase
          (wire "msg_3" false 0, sc)) ∧
    (∀ x ∈ (DelayedConsumer.body taskQueue alwaysFails (calmAt 1700000010)
        pastAndDueStore).1.zsets (taskQueue.queueName ++ ":delayed"),
      x.1 ≠ wire "msg_3" false 0) ∧
    (∀ k, k ≠ taskQueue.queueName ++ ":delayed" →
      (DelayedConsumer.body taskQueue alwaysFails (calmAt 1700000010) pastAndDueStore).1.zsets k =
        pastAndDueStore.zsets k)) :=
  ⟨⟨by decide!, by decide!⟩,
    delayed_failure_is_drop taskQueue alwaysFails (calmAt 1700000010) pastAndDueStore
      (wire "msg_3" false 0) msg3 "模拟处理失败" (by decide!) (by decide!)⟩

/-- C8, instance: `msg_2` with retry count 3 routed to `task_queue:dead`. -/
theorem dead_letter_routing_witness :
    Marshal { msg2 with Retry := 3 } = .ok (wire "msg_2" true 3) ∧
    (moveToDeadLetter taskQueue false { msg2 with Retry := 3 } Store.empty).lists
      "task_queue:dead" = [wire "msg_2" true 3] ∧
    moveToDeadLetter taskQueue true { msg2 with Retry := 3 } Store.empty = Store.empty :=
  ⟨by decide,
    (dead_letter_routing taskQueue { msg2 with Retry := 3 } (wire "msg_2" true 3)
      Store.empty (by decide)).1,
    (dead_letter_routing taskQueue { msg2 with Retry := 3 } (wire "msg_2" true 3)
      Store.empty (by decide)).2.2.2.2.2.1⟩

/-- C9, instance: `msg_2` produced on the empty queue of `main`. -/
theorem producer_depth_and_introspection_witness :
    (Producer taskQueue false msg2 Store.empty).1 = .ok () ∧
    (GetQueueLength taskQueue false (Producer taskQueue false msg2 Store.empty).2).1 =
      .ok (((Store.empty.lists taskQueue.queueName).length : Int) + 1) ∧
    (GetQueueLength taskQueue false Store.empty).1 = .ok 0 :=
  ⟨by decide,
    ((producer_depth_and_introspection taskQueue Store.empty msg2 false).1 (by decide)).1,
    (producer_depth_and_introspection taskQueue Store.empty msg2 false).2.2.1⟩

/-- C10, instance: in the set holding `msg_1` at score -5 and `msg_3` at score
1700000003, the claimed entry of `msg_3` is the least among the scores from 0
up. -/
theorem earliest_due_first_witness :
    (DelayedConsumer.body taskQueue neverFails (calmAt 1700000010) pastAndDueStore).2 =
      .handled (wire "msg_3" false 0) msg3 (.ok ()) ∧
    ∃ sc, (wire "msg_3" false 0, sc) ∈ pastAndDueStore.zsets (taskQueue.queueName ++ ":delayed") ∧
      0 ≤ sc ∧ sc ≤ (calmAt 1700000010).now ∧
      ∀ e ∈ pastAndDueStore.zsets (taskQueue.queueName ++ ":delayed"), 0 ≤ e.2 → sc ≤ e.2 :=
  ⟨by decide!,
    (earliest_due_first taskQueue neverFails (calmAt 1700000010) pastAndDueStore).1
      (wire "msg_3" false 0) (Or.inr ⟨msg3, .ok (), by decide!⟩)⟩

end RedisMQ
